import Mathlib

/-!
# Covariance visualisation helpers of `Acts/Visualization/EventDataVisualization.hpp`

A shallow embedding of `decomposeCovariance`, `createEllipse`,
`drawCovarianceCartesian`, `drawCovarianceAngular` and `drawBoundParameters`.

The functions are written once, over an arbitrary number type `α` that carries
the arithmetic operations and the handful of `<cmath>` routines the header calls
(`Libm α`). Two number types are used:

* `ℝ`, exact real arithmetic: `std::sqrt`, `std::cos`, `std::sin`, `tan` are the
  real functions and `atan2 y x` is the argument of `x + y i` (so that
  `atan2 0 0 = 0`). This is the arithmetic the formulas of the header are meant
  to approximate; it knows neither rounding nor NaN, so statements over `ℝ`
  that take a square root are stated for non-negative arguments.
* `F64`, IEEE 754 binary64, the arithmetic of the C++ type `double`:
  round-to-nearest-even, infinities and NaN, the trigonometric routines of the
  platform left open (`PlatformLibm`). Statements over `F64` say what the
  compiled code computes.
-/

namespace Acts
namespace Visualization

/-! ## Numeric environment -/

/-- The `<cmath>` routines used by the header, over a number type `α`. -/
class Libm (α : Type) where
  /-- The routine `std::sqrt`. -/
  sqrt : α → α
  /-- The routine `std::cos`. -/
  cos : α → α
  /-- The routine `std::sin`. -/
  sin : α → α
  /-- The routine `tan`. -/
  tan : α → α
  /-- The routine `atan2`, first argument `y`, second argument `x`. -/
  atan2 : α → α → α
  /-- The constant `M_PI`. -/
  M_PI : α

/-- The exact reading of `<cmath>`, over the real numbers: `atan2 y x` is the
argument of the complex number `x + y i`, which is `0` at the origin. This is
exact real arithmetic, not the machine's `double`: nothing is rounded, and
`Real.sqrt` is `0` below zero where `std::sqrt` is NaN, so what is proved
through it is proved of exact arithmetic and, where a square root is taken, of
non-negative arguments. The machine reading is `machineLibm` over `F64`. -/
noncomputable instance realLibm : Libm ℝ where
  sqrt := Real.sqrt
  cos := Real.cos
  sin := Real.sin
  tan := Real.tan
  atan2 := fun y x => Complex.arg ⟨x, y⟩
  M_PI := Real.pi

/-! ## Linear-algebra types (Eigen typedefs of `Definitions.hpp`) -/

/-- Eigen `Vector2D`. -/
abbrev Vector2D (α : Type) := Fin 2 → α

/-- Eigen `Vector3D`. -/
abbrev Vector3D (α : Type) := Fin 3 → α

/-- The type `ActsSymMatrixD<2>`; only the entries `(0,0)`, `(0,1)`, `(1,1)` are read. -/
abbrev ActsSymMatrixD2 (α : Type) := Matrix (Fin 2) (Fin 2) α

/-- Index `eLOC_0`. -/
def eLOC_0 : Fin 2 := 0

/-- Index `eLOC_1`. -/
def eLOC_1 : Fin 2 := 1

section Code

variable {α : Type} [Zero α] [One α] [OfNat α 2] [OfNat α 4] [NatCast α] [OfScientific α]
  [Add α] [Sub α] [Mul α] [Div α] [Neg α] [Pow α ℕ] [LT α]
  [DecidableRel (fun a b : α => a < b)] [Libm α]

/-! ## decomposeCovariance -/

/-- Helper to find the eigenvalues and correlation angle
(`decomposeCovariance`, lines 30-45); returns `(lambda0, lambda1, theta)`. -/
def decomposeCovariance (covariance : ActsSymMatrixD2 α) : α × α × α :=
  let c00 := covariance eLOC_0 eLOC_0
  let c01 := covariance eLOC_0 eLOC_1
  let c11 := covariance eLOC_1 eLOC_1
  let cdsq := (c00 - c11) ^ 2 / 4
  let cosq := c01 * c01
  let lambda0 := (c00 + c11) / 2 + Libm.sqrt (cdsq + cosq)
  let lambda1 := (c00 + c11) / 2 - Libm.sqrt (cdsq + cosq)
  let theta := Libm.atan2 (lambda0 - c00) c01
  (lambda0, lambda1, theta)

/-! ## Eigen geometry: affine transforms, translations, angle-axis rotations -/

/-- Eigen `Transform3D` (affine mode): a linear part and a translation. -/
structure Transform3D (α : Type) where
  /-- The 3x3 linear part. -/
  linear : Matrix (Fin 3) (Fin 3) α
  /-- The translation part. -/
  translation : Vector3D α

/-- The transform `Transform3D::Identity()`. -/
def Transform3D.Identity : Transform3D α :=
  ⟨fun i j => if i = j then 1 else 0, fun _ => 0⟩

/-- The product `transform * Vector3D(...)`: the affine map applied to a point,
each coordinate a row of the linear part times the point, plus the translation. -/
def Transform3D.apply (T : Transform3D α) (v : Vector3D α) : Vector3D α :=
  fun i => T.linear i 0 * v 0 + T.linear i 1 * v 1 + T.linear i 2 * v 2 + T.translation i

/-- The product of two transforms, `A * B` (first `B`, then `A`). -/
def Transform3D.mul (A B : Transform3D α) : Transform3D α :=
  ⟨fun i j => A.linear i 0 * B.linear 0 j + A.linear i 1 * B.linear 1 j +
      A.linear i 2 * B.linear 2 j,
   fun i => A.linear i 0 * B.translation 0 + A.linear i 1 * B.translation 1 +
      A.linear i 2 * B.translation 2 + A.translation i⟩

/-- The determinant of the linear part of a transform. -/
def Transform3D.det (T : Transform3D α) : α :=
  T.linear 0 0 * (T.linear 1 1 * T.linear 2 2 - T.linear 1 2 * T.linear 2 1) -
    T.linear 0 1 * (T.linear 1 0 * T.linear 2 2 - T.linear 1 2 * T.linear 2 0) +
    T.linear 0 2 * (T.linear 1 0 * T.linear 2 1 - T.linear 1 1 * T.linear 2 0)

/-- The inverse of an affine transform (`Transform3D::inverse()`): the linear
part is inverted through its cofactors and determinant, the translation is
minus the inverted linear part applied to the translation. -/
def Transform3D.inverse (T : Transform3D α) : Transform3D α :=
  let m := T.linear
  let d := T.det
  let inv : Matrix (Fin 3) (Fin 3) α :=
    !![(m 1 1 * m 2 2 - m 1 2 * m 2 1) / d, (m 0 2 * m 2 1 - m 0 1 * m 2 2) / d,
        (m 0 1 * m 1 2 - m 0 2 * m 1 1) / d;
       (m 1 2 * m 2 0 - m 1 0 * m 2 2) / d, (m 0 0 * m 2 2 - m 0 2 * m 2 0) / d,
        (m 0 2 * m 1 0 - m 0 0 * m 1 2) / d;
       (m 1 0 * m 2 1 - m 1 1 * m 2 0) / d, (m 0 1 * m 2 0 - m 0 0 * m 2 1) / d,
        (m 0 0 * m 1 1 - m 0 1 * m 1 0) / d]
  ⟨inv, fun i => -(inv i 0 * T.translation 0 + inv i 1 * T.translation 1 +
      inv i 2 * T.translation 2)⟩

/-- Eigen `Translation3D(v)` as a transform. -/
def Translation3D (v : Vector3D α) : Transform3D α :=
  ⟨fun i j => if i = j then 1 else 0, v⟩

/-- Eigen `AngleAxis3D(angle, axis)` as a transform; the matrix is the one
`AngleAxis::toRotationMatrix` fills in. -/
def AngleAxis3D (angle : α) (axis : Vector3D α) : Transform3D α :=
  let s := Libm.sin angle
  let c := Libm.cos angle
  let sin_axis : Vector3D α := fun i => s * axis i
  let cos1_axis : Vector3D α := fun i => (1 - c) * axis i
  ⟨!![cos1_axis 0 * axis 0 + c, cos1_axis 0 * axis 1 - sin_axis 2, cos1_axis 0 * axis 2 + sin_axis 1;
      cos1_axis 0 * axis 1 + sin_axis 2, cos1_axis 1 * axis 1 + c, cos1_axis 1 * axis 2 - sin_axis 0;
      cos1_axis 0 * axis 2 - sin_axis 1, cos1_axis 1 * axis 2 + sin_axis 0, cos1_axis 2 * axis 2 + c],
   fun _ => 0⟩

/-- Eigen `v.squaredNorm()`. -/
def squaredNorm (v : Vector3D α) : α := v 0 * v 0 + v 1 * v 1 + v 2 * v 2

/-- Eigen `v.norm()`. -/
def norm (v : Vector3D α) : α := Libm.sqrt (squaredNorm v)

/-- Eigen `v.normalized()`: divides by the norm when the squared norm is
positive, and returns the vector unchanged otherwise. -/
def normalized (v : Vector3D α) : Vector3D α :=
  let z := squaredNorm v
  if z > 0 then fun i => v i / Libm.sqrt z else v

/-- Modelled from the spec: `VectorHelpers::phi` (in `Helpers.hpp`, not part of
the sources at hand), the azimuthal angle `atan2(v.y, v.x)` of a direction. -/
def VectorHelpers.phi (v : Vector3D α) : α := Libm.atan2 (v 1) (v 0)

/-- Modelled from the spec: `VectorHelpers::theta` (in `Helpers.hpp`, not part of
the sources at hand), the polar angle `atan2(sqrt(v.x^2 + v.y^2), v.z)`. -/
def VectorHelpers.theta (v : Vector3D α) : α :=
  Libm.atan2 (Libm.sqrt (v 0 * v 0 + v 1 * v 1)) (v 2)

/-! ## createEllipse -/

/-- The `for` loop of `createEllipse` (lines 70-77): `it` is the loop counter,
`ellipse` the vector filled by `push_back`. -/
def createEllipse.loop (l1sq l2sq ctheta stheta thetaStep outOfPlane : α)
    (lposition : Vector2D α) (transform : Transform3D α) (lseg : Nat)
    (it : Nat) (ellipse : List (Vector3D α)) : List (Vector3D α) :=
  if it < lseg then
    let phi := -Libm.M_PI + (it : α) * thetaStep
    let cphi := Libm.cos phi
    let sphi := Libm.sin phi
    let x := lposition 0 + (l1sq * ctheta * cphi - l2sq * stheta * sphi)
    let y := lposition 1 + (l1sq * stheta * cphi + l2sq * ctheta * sphi)
    createEllipse.loop l1sq l2sq ctheta stheta thetaStep outOfPlane lposition transform lseg
      (it + 1) (ellipse ++ [transform.apply ![x, y, outOfPlane]])
  else ellipse
termination_by lseg - it

/-- Helper method to draw the ellipse points (`createEllipse`, lines 56-79). -/
def createEllipse (lambda0 lambda1 theta : α) (lseg : Nat) (outOfPlane : α)
    (lposition : Vector2D α) (transform : Transform3D α) : List (Vector3D α) :=
  let ctheta := Libm.cos theta
  let stheta := Libm.sin theta
  let l1sq := Libm.sqrt lambda0
  let l2sq := Libm.sqrt lambda1
  let thetaStep := 2 * Libm.M_PI / (lseg : α)
  createEllipse.loop l1sq l2sq ctheta stheta thetaStep outOfPlane lposition transform lseg 0 []

/-- The point pushed by the loop body of `createEllipse` at counter `it`. -/
def loopPoint (l1sq l2sq ctheta stheta thetaStep outOfPlane : α)
    (lposition : Vector2D α) (transform : Transform3D α) (it : Nat) : Vector3D α :=
  transform.apply
    ![lposition 0 + (l1sq * ctheta * Libm.cos (-Libm.M_PI + (it : α) * thetaStep) -
        l2sq * stheta * Libm.sin (-Libm.M_PI + (it : α) * thetaStep)),
      lposition 1 + (l1sq * stheta * Libm.cos (-Libm.M_PI + (it : α) * thetaStep) +
        l2sq * ctheta * Libm.sin (-Libm.M_PI + (it : α) * thetaStep)),
      outOfPlane]

/-! ## The visualisation sink and the external collaborators -/

/-- The type `IVisualization::ColorType`. -/
abbrev ColorType := Nat × Nat × Nat

/-- A list of faces, each a list of vertex indices (`FaceType` lists). -/
abbrev Faces := List (List Nat)

/-- The geometry context: a token never inspected here. -/
structure GeometryContext where
  /-- An identifier of the alignment conditions. -/
  id : Nat

/-- The part of `Surface` used here: its transform at a geometry context. -/
structure Surface (α : Type) where
  /-- The method `transform(gctx)`. -/
  transform : GeometryContext → Transform3D α

/-- Value type `Polyhedron`: vertices, faces and triangular mesh. -/
structure Polyhedron (α : Type) where
  /-- The vertex list. -/
  vertices : List (Vector3D α)
  /-- The faces. -/
  faces : Faces
  /-- The triangular mesh. -/
  triangularMesh : Faces

/-- What reaches the visualisation helper: one constructor per external draw
routine called by the header. The Boolean of `polyhedron` is the second
argument of `Polyhedron::draw`, read as the wireframe flag (`false` = filled). -/
inductive DrawCall (α : Type) where
  /-- A call `drawSurface(helper, surface, gctx, transform, lseg, wireframe, color)`. -/
  | surface (surface : Surface α) (gctx : GeometryContext) (transform : Transform3D α)
      (lseg : Nat) (flag : Bool) (color : ColorType)
  /-- A call `drawArrowForward(helper, start, end, r0, r1, scale, lseg, color)`. -/
  | arrow (start tip : Vector3D α) (shaft head scale : α) (lseg : Nat) (color : ColorType)
  /-- A call `polyhedron.draw(helper, wireframe, color)`. -/
  | polyhedron (hedron : Polyhedron α) (wireframe : Bool) (color : ColorType)

/-- The helper `IVisualization&`: the draw calls received so far, oldest first. -/
abbrev IVisualization (α : Type) := List (DrawCall α)

/-- The signature of `detail::FacesHelper::convexFaceMesh`, whose body is not
part of the sources at hand: it is a parameter of the draw routines. -/
abbrev ConvexFaceMesh (α : Type) := List (Vector3D α) → Bool → Faces × Faces

/-- The method `Polyhedron::draw(helper, flag, color)`. -/
def Polyhedron.draw (hedron : Polyhedron α) (helper : IVisualization α) (flag : Bool)
    (color : ColorType) : IVisualization α :=
  helper ++ [DrawCall.polyhedron hedron flag color]

/-- The routine `drawSurface` of `GeometryVisualization.hpp`. -/
def drawSurface (helper : IVisualization α) (surface : Surface α) (gctx : GeometryContext)
    (transform : Transform3D α) (lseg : Nat) (flag : Bool) (color : ColorType) :
    IVisualization α :=
  helper ++ [DrawCall.surface surface gctx transform lseg flag color]

/-- The routine `drawArrowForward` of `GeometryVisualization.hpp`. -/
def drawArrowForward (helper : IVisualization α) (start tip : Vector3D α)
    (shaft head scale : α) (lseg : Nat) (color : ColorType) : IVisualization α :=
  helper ++ [DrawCall.arrow start tip shaft head scale lseg color]

/-- The vertices a draw call hands to the helper as a mesh: those of the
polyhedron; the surface and arrow calls carry no vertex list. -/
def DrawCall.vertices : DrawCall α → List (Vector3D α)
  | DrawCall.polyhedron hedron _ _ => hedron.vertices
  | DrawCall.surface _ _ _ _ _ _ => []
  | DrawCall.arrow _ _ _ _ _ _ _ => []

/-- Whether a draw call is an arrow draw. -/
def DrawCall.isArrow : DrawCall α → Bool
  | DrawCall.arrow _ _ _ _ _ _ _ => true
  | _ => false

/-- Whether a draw call is a mesh (polyhedron) draw. -/
def DrawCall.isPolyhedron : DrawCall α → Bool
  | DrawCall.polyhedron _ _ _ => true
  | _ => false

/-- Whether a draw call is a surface draw. -/
def DrawCall.isSurface : DrawCall α → Bool
  | DrawCall.surface _ _ _ _ _ _ => true
  | _ => false

/-! ## drawCovarianceCartesian -/

/-- Default of the argument `nsigma` of both covariance draw routines. -/
def nsigmaDefault : List Int := [3]

/-- Default of the arguments `lseg`. -/
def lsegDefault : Nat := 72

/-- Default of the arguments `color` (and `pcolor`). -/
def colorDefault : ColorType := (20, 120, 20)

/-- Default of the argument `scolor` of `drawBoundParameters`. -/
def scolorDefault : ColorType := (235, 198, 52)

/-- Helper method to draw the error ellipse (`drawCovarianceCartesian`,
lines 91-108). The helper is threaded through and returned. -/
def drawCovarianceCartesian (convexFaceMesh : ConvexFaceMesh α) (helper : IVisualization α)
    (lposition : Vector2D α) (covariance : ActsSymMatrixD2 α) (transform : Transform3D α)
    (_nsigma : List Int) (_locErrorScale : α) (lseg : Nat) (color : ColorType)
    (outOfPlane : α) : IVisualization α :=
  let (lambda0, lambda1, theta) := decomposeCovariance covariance
  let ellipse := createEllipse lambda0 lambda1 theta lseg outOfPlane lposition transform
  let ellipse := ellipse ++ [transform.apply ![lposition 0, lposition 1, outOfPlane]]
  let faces := convexFaceMesh ellipse true
  let ellipseHedron : Polyhedron α := ⟨ellipse, faces.1, faces.2⟩
  ellipseHedron.draw helper false color

/-! ## drawCovarianceAngular -/

/-- The tangent frame `eplane` built in `drawCovarianceAngular` (lines 131-136). -/
def eplane (anker direction : Vector3D α) : Transform3D α :=
  let dphi := VectorHelpers.phi direction
  let dtheta := VectorHelpers.theta direction
  ((Translation3D anker).mul (AngleAxis3D dtheta ![1, 0, 0])).mul (AngleAxis3D dphi ![0, 0, 1])

/-- Helper method to draw the error cone of a direction (`drawCovarianceAngular`,
lines 121-155). The helper is threaded through and returned. -/
def drawCovarianceAngular (convexFaceMesh : ConvexFaceMesh α) (helper : IVisualization α)
    (position direction : Vector3D α) (covariance : ActsSymMatrixD2 α)
    (_nsigma : List Int) (directionScale angularErrorScale : α) (lseg : Nat)
    (color : ColorType) : IVisualization α :=
  let (lambda0, lambda1, theta) := decomposeCovariance covariance
  let anker : Vector3D α := position + directionScale • direction
  let ellipse := createEllipse (angularErrorScale * directionScale * Libm.tan lambda0)
    (angularErrorScale * directionScale * Libm.tan lambda1) theta lseg 0 ![0, 0]
    (eplane anker direction)
  let coneTop := ellipse ++ [anker]
  let coneTopFaces := convexFaceMesh coneTop true
  let coneTopHedron : Polyhedron α := ⟨coneTop, coneTopFaces.1, coneTopFaces.2⟩
  let helper := coneTopHedron.draw helper false color
  let cone := ellipse ++ [position]
  let coneFaces := convexFaceMesh cone true
  let coneHedron : Polyhedron α := ⟨cone, coneFaces.1, coneFaces.2⟩
  coneHedron.draw helper true color

/-! ## drawBoundParameters -/

/-- The type `BoundSymMatrix` (6x6). -/
abbrev BoundSymMatrix (α : Type) := Matrix (Fin 6) (Fin 6) α

/-- Eigen `m.block<2, 2>(r, c)`. -/
def block22 (m : BoundSymMatrix α) (r c : Nat) (hr : r + 2 ≤ 6) (hc : c + 2 ≤ 6) :
    ActsSymMatrixD2 α :=
  fun i j => m ⟨r + i.val, by omega⟩ ⟨c + j.val, by omega⟩

/-- What `drawBoundParameters` asks of its template argument `parameters_t`. -/
structure BoundParameters (α : Type) where
  /-- The method `position()`. -/
  position : Vector3D α
  /-- The method `momentum()`. -/
  momentum : Vector3D α
  /-- The method `covariance()`, a `std::optional`. -/
  covariance : Option (BoundSymMatrix α)
  /-- The method `referenceSurface()`. -/
  referenceSurface : Surface α
  /-- The vector `getParameterSet().getParameters()`. -/
  getParameters : Fin 6 → α

/-- Helper method to draw bound parameters (`drawBoundParameters`, lines
169-211). The helper is threaded through and returned. -/
def drawBoundParameters (convexFaceMesh : ConvexFaceMesh α) (helper : IVisualization α)
    (parameters : BoundParameters α) (gctx : GeometryContext) (momentumScale : α)
    (locErrorScale angularErrorScale : α) (drawParameterSurface : Bool) (lseg : Nat)
    (pcolor scolor : ColorType) : IVisualization α :=
  let helper :=
    if drawParameterSurface then
      drawSurface helper parameters.referenceSurface gctx Transform3D.Identity lseg false scolor
    else helper
  let position := parameters.position
  let direction := normalized parameters.momentum
  let p := norm parameters.momentum
  let _startmod : Vector3D α :=
    if parameters.covariance.isSome then (0.25 * p * momentumScale) • direction
    else ![0, 0, 0]
  let helper := drawArrowForward helper position (position + (p * momentumScale) • direction)
    0.025 0.05 2 72 pcolor
  match parameters.covariance with
  | some covariance =>
    let lposition : Vector2D α := fun i => parameters.getParameters ⟨0 + i.val, by omega⟩
    let helper := drawCovarianceCartesian convexFaceMesh helper lposition
      (block22 covariance 0 0 (by decide) (by decide))
      (parameters.referenceSurface.transform gctx) [3] locErrorScale 72 pcolor 0.01
    drawCovarianceAngular convexFaceMesh helper parameters.position
      (normalized parameters.momentum) (block22 covariance 2 2 (by decide) (by decide)) [3]
      (0.9 * p * momentumScale) angularErrorScale 72 pcolor
  | none => helper

/-- The polyhedron `ellipseHedron` built by `drawCovarianceCartesian` (lines 97-106). -/
def ellipseHedron (convexFaceMesh : ConvexFaceMesh α) (lposition : Vector2D α)
    (covariance : ActsSymMatrixD2 α) (transform : Transform3D α) (lseg : Nat)
    (outOfPlane : α) : Polyhedron α :=
  let ellipse := createEllipse (decomposeCovariance covariance).1
      (decomposeCovariance covariance).2.1 (decomposeCovariance covariance).2.2 lseg outOfPlane
      lposition transform ++ [transform.apply ![lposition 0, lposition 1, outOfPlane]]
  ⟨ellipse, (convexFaceMesh ellipse true).1, (convexFaceMesh ellipse true).2⟩

/-- The rim `ellipse` generated by `drawCovarianceAngular` (lines 126-142). -/
def angularEllipse (position direction : Vector3D α) (covariance : ActsSymMatrixD2 α)
    (directionScale angularErrorScale : α) (lseg : Nat) : List (Vector3D α) :=
  createEllipse (angularErrorScale * directionScale * Libm.tan (decomposeCovariance covariance).1)
    (angularErrorScale * directionScale * Libm.tan (decomposeCovariance covariance).2.1)
    (decomposeCovariance covariance).2.2 lseg 0 ![0, 0]
    (eplane (position + directionScale • direction) direction)

/-- The polyhedron `coneTopHedron` built by `drawCovarianceAngular` (lines 144-147). -/
def coneTopHedron (convexFaceMesh : ConvexFaceMesh α) (position direction : Vector3D α)
    (covariance : ActsSymMatrixD2 α) (directionScale angularErrorScale : α) (lseg : Nat) :
    Polyhedron α :=
  let coneTop := angularEllipse position direction covariance directionScale angularErrorScale
      lseg ++ [position + directionScale • direction]
  ⟨coneTop, (convexFaceMesh coneTop true).1, (convexFaceMesh coneTop true).2⟩

/-- The polyhedron `coneHedron` built by `drawCovarianceAngular` (lines 150-153). -/
def coneHedron (convexFaceMesh : ConvexFaceMesh α) (position direction : Vector3D α)
    (covariance : ActsSymMatrixD2 α) (directionScale angularErrorScale : α) (lseg : Nat) :
    Polyhedron α :=
  let cone := angularEllipse position direction covariance directionScale angularErrorScale
      lseg ++ [position]
  ⟨cone, (convexFaceMesh cone true).1, (convexFaceMesh cone true).2⟩

/-- The local position `block<2, 1>(0, 0)` of the parameter vector (line 196). -/
def BoundParameters.lposition (parameters : BoundParameters α) : Vector2D α :=
  fun i => parameters.getParameters ⟨0 + i.val, by omega⟩

end Code

/-! ## The machine reading: IEEE 754 binary64

The C++ type `double`, with round-to-nearest-even, the binary64 exponent range,
infinities and NaN. The two zeros are identified (no signed zero): they differ
only in `atan2` and in the sign of a quotient by zero, neither of which is
evaluated at a zero below. -/

/-- A value of type `double`: NaN, an infinity, or a finite value given by the
rational it denotes. -/
inductive F64 where
  /-- Not a number. -/
  | nan : F64
  /-- Plus infinity (`false`) or minus infinity (`true`). -/
  | inf (negative : Bool) : F64
  /-- A finite value. -/
  | fin (q : ℚ) : F64
deriving DecidableEq

namespace F64

/-- Rounding of a rational to the nearest integer, ties to the even one. -/
def roundHalfEven (x : ℚ) : ℤ :=
  if x - ⌊x⌋ < 1 / 2 then ⌊x⌋
  else if 1 / 2 < x - ⌊x⌋ then ⌊x⌋ + 1
  else if ⌊x⌋ % 2 = 0 then ⌊x⌋ else ⌊x⌋ + 1

/-- The exponent of the last mantissa bit for the binade that holds `q`:
53 bits of precision, not below the subnormal exponent `-1074`. -/
def ulpExp (q : ℚ) : ℤ := max (Int.log 2 |q| - 52) (-1074)

/-- Rounding of a rational to the nearest binary64 value, ties to even,
before the overflow check. -/
def roundNearest (q : ℚ) : ℚ :=
  if q = 0 then 0 else (roundHalfEven (q / 2 ^ ulpExp q) : ℚ) * 2 ^ ulpExp q

/-- The binary64 result of an exact rational: rounded, and an infinity when the
rounded magnitude reaches `2^1024`. -/
def ofRat (q : ℚ) : F64 :=
  if (2 : ℚ) ^ 1024 ≤ |roundNearest q| then inf (decide (roundNearest q < 0)) else fin (roundNearest q)

/-- Addition of two binary64 values. -/
def add : F64 → F64 → F64
  | nan, _ => nan
  | _, nan => nan
  | inf a, inf b => if a = b then inf a else nan
  | inf a, fin _ => inf a
  | fin _, inf b => inf b
  | fin a, fin b => ofRat (a + b)

/-- Negation of a binary64 value. -/
def neg : F64 → F64
  | nan => nan
  | inf a => inf (!a)
  | fin a => fin (-a)

/-- Subtraction of two binary64 values. -/
def sub (x y : F64) : F64 := add x (neg y)

/-- Multiplication of two binary64 values. -/
def mul : F64 → F64 → F64
  | nan, _ => nan
  | _, nan => nan
  | inf a, inf b => inf (a != b)
  | inf a, fin q => if q = 0 then nan else inf (a != decide (q < 0))
  | fin q, inf b => if q = 0 then nan else inf (decide (q < 0) != b)
  | fin a, fin b => ofRat (a * b)

/-- Division of two binary64 values. -/
def div : F64 → F64 → F64
  | nan, _ => nan
  | _, nan => nan
  | inf _, inf _ => nan
  | inf a, fin q => inf (a != decide (q < 0))
  | fin _, inf _ => fin 0
  | fin a, fin b =>
    if b = 0 then (if a = 0 then nan else inf (decide (a < 0))) else ofRat (a / b)

/-- The correctly rounded square root of a positive rational: with `e` the
exponent of the last mantissa bit of the root and `x = q / 4^e`, the mantissa is
the integer nearest to the square root of `x`, found from the integer square
root `s` of `x` by comparing `x` with `(s + 1/2)^2`. -/
def roundSqrt (q : ℚ) : ℚ :=
  if q ≤ 0 then 0
  else
    let e : ℤ := Int.log 2 q / 2 - 52
    let x : ℚ := q / 4 ^ e
    let s : ℤ := (Nat.sqrt ⌊x⌋₊ : ℤ)
    let m : ℤ :=
      if x < ((s : ℚ) + 1 / 2) ^ 2 then s
      else if ((s : ℚ) + 1 / 2) ^ 2 < x then s + 1
      else if s % 2 = 0 then s else s + 1
    (m : ℚ) * 2 ^ e

/-- The routine `std::sqrt` on binary64: NaN below zero. -/
def sqrt : F64 → F64
  | nan => nan
  | inf false => inf false
  | inf true => nan
  | fin q => if q < 0 then nan else fin (roundSqrt q)

/-- The comparison `x < y` of two binary64 values (false when one is NaN). -/
def blt : F64 → F64 → Bool
  | fin a, fin b => decide (a < b)
  | inf true, fin _ => true
  | fin _, inf false => true
  | inf true, inf false => true
  | _, _ => false

/-- The power `std::pow(x, n)` for a natural exponent, as a repeated product. -/
def npow : F64 → ℕ → F64
  | _, 0 => fin 1
  | x, 1 => x
  | x, n + 2 => mul (npow x (n + 1)) x

instance : Zero F64 := ⟨fin 0⟩

instance : One F64 := ⟨fin 1⟩

instance (n : ℕ) [n.AtLeastTwo] : OfNat F64 n := ⟨ofRat n⟩

instance : NatCast F64 := ⟨fun n => ofRat n⟩

instance : OfScientific F64 := ⟨fun m s e => ofRat (OfScientific.ofScientific m s e)⟩

instance : Add F64 := ⟨add⟩

instance : Sub F64 := ⟨sub⟩

instance : Mul F64 := ⟨mul⟩

instance : Div F64 := ⟨div⟩

instance : Neg F64 := ⟨neg⟩

instance : Pow F64 ℕ := ⟨npow⟩

instance : LT F64 := ⟨fun x y => blt x y = true⟩

instance : DecidableRel (fun a b : F64 => a < b) :=
  fun x y => inferInstanceAs (Decidable (blt x y = true))

/-- The constant `M_PI` of `<cmath>`: the binary64 value nearest to pi. -/
def M_PI : F64 := fin (884279719003555 / 2 ^ 48)

end F64

/-- The trigonometric routines of the platform's `<cmath>` on binary64. IEEE 754
does not fix their results bit for bit, so they are left open; what is used of
them is that cosine and sine of a finite argument are finite and lie between
`-1` and `1`. -/
class PlatformLibm where
  /-- The routine `std::cos`. -/
  cos : F64 → F64
  /-- The routine `std::sin`. -/
  sin : F64 → F64
  /-- The routine `tan`. -/
  tan : F64 → F64
  /-- The routine `atan2`. -/
  atan2 : F64 → F64 → F64
  /-- The cosine of a finite argument is finite, within `[-1, 1]`. -/
  cos_range : ∀ q : ℚ, ∃ r : ℚ, cos (F64.fin q) = F64.fin r ∧ |r| ≤ 1
  /-- The sine of a finite argument is finite, within `[-1, 1]`. -/
  sin_range : ∀ q : ℚ, ∃ r : ℚ, sin (F64.fin q) = F64.fin r ∧ |r| ≤ 1

/-- The machine reading of `<cmath>`: correctly rounded `std::sqrt`, the
platform's trigonometric routines, the binary64 `M_PI`. -/
instance machineLibm [PlatformLibm] : Libm F64 where
  sqrt := F64.sqrt
  cos := PlatformLibm.cos
  sin := PlatformLibm.sin
  tan := PlatformLibm.tan
  atan2 := PlatformLibm.atan2
  M_PI := F64.M_PI

/-! ## Facts about the real `<cmath>` -/

section RealFacts

theorem real_sqrt_eq (x : ℝ) : (Libm.sqrt x : ℝ) = Real.sqrt x := rfl

theorem real_cos_eq (x : ℝ) : (Libm.cos x : ℝ) = Real.cos x := rfl

theorem real_sin_eq (x : ℝ) : (Libm.sin x : ℝ) = Real.sin x := rfl

theorem real_atan2_eq (y x : ℝ) : (Libm.atan2 y x : ℝ) = Complex.arg ⟨x, y⟩ := rfl

/-- The angle `atan2 y x` points along `(x, y)`: scaled by the squared length,
`cos²`, `sin²` and `sin·cos` are `x²`, `y²` and `x·y`. -/
theorem atan2_trig (y x : ℝ) (h : x ≠ 0 ∨ y ≠ 0) :
    Real.cos (Libm.atan2 y x) ^ 2 * (x ^ 2 + y ^ 2) = x ^ 2 ∧
    Real.sin (Libm.atan2 y x) ^ 2 * (x ^ 2 + y ^ 2) = y ^ 2 ∧
    Real.sin (Libm.atan2 y x) * Real.cos (Libm.atan2 y x) * (x ^ 2 + y ^ 2) = x * y := by
  have hz : (⟨x, y⟩ : ℂ) ≠ 0 := by
    intro h0
    have h1 := congrArg Complex.re h0
    have h2 := congrArg Complex.im h0
    simp at h1 h2
    rcases h with h | h
    · exact h h1
    · exact h h2
  have habs : Complex.abs ⟨x, y⟩ ≠ 0 := by
    simpa using hz
  have hsq : Complex.abs ⟨x, y⟩ ^ 2 = x ^ 2 + y ^ 2 := by
    rw [Complex.sq_abs, Complex.normSq_apply]
    ring
  rw [real_atan2_eq, Complex.cos_arg hz, Complex.sin_arg]
  simp only []
  rw [← hsq]
  refine ⟨?_, ?_, ?_⟩
  · field_simp
  · field_simp
  · field_simp
    ring

theorem atan2_zero_zero : (Libm.atan2 (0 : ℝ) 0 : ℝ) = 0 := by
  rw [real_atan2_eq]
  have : (⟨0, 0⟩ : ℂ) = 0 := rfl
  rw [this, Complex.arg_zero]

end RealFacts

/-! ## The loop of createEllipse -/

section Loop

set_option linter.unusedSectionVars false

variable {α : Type} [Zero α] [One α] [OfNat α 2] [OfNat α 4] [NatCast α] [OfScientific α]
  [Add α] [Sub α] [Mul α] [Div α] [Neg α] [Pow α ℕ] [LT α]
  [DecidableRel (fun a b : α => a < b)] [Libm α]

/-- Running the loop from counter `it` with `k` iterations left appends the
points of the counters `it, it+1, ..., it+k-1`, in this order. -/
theorem createEllipse_loop_eq (l1sq l2sq ctheta stheta thetaStep outOfPlane : α)
    (lposition : Vector2D α) (transform : Transform3D α) (lseg : Nat) (k : Nat) :
    ∀ (it : Nat) (ellipse : List (Vector3D α)), lseg - it = k →
      createEllipse.loop l1sq l2sq ctheta stheta thetaStep outOfPlane lposition transform lseg
          it ellipse =
        ellipse ++ (List.range' it k).map
          (loopPoint l1sq l2sq ctheta stheta thetaStep outOfPlane lposition transform) := by
  induction k with
  | zero =>
    intro it ellipse h
    have hlt : ¬ it < lseg := by omega
    rw [createEllipse.loop, if_neg hlt]
    simp
  | succ k ih =>
    intro it ellipse h
    have hlt : it < lseg := by omega
    rw [createEllipse.loop, if_pos hlt]
    simp only []
    rw [ih (it + 1) _ (by omega)]
    simp [List.range'_succ, loopPoint]

/-- The loop of `createEllipse` run from an empty vector: one point per counter
`0, ..., lseg-1`. -/
theorem createEllipse_eq_map (lambda0 lambda1 theta : α) (lseg : Nat) (outOfPlane : α)
    (lposition : Vector2D α) (transform : Transform3D α) :
    createEllipse lambda0 lambda1 theta lseg outOfPlane lposition transform =
      (List.range lseg).map
        (loopPoint (Libm.sqrt lambda0) (Libm.sqrt lambda1) (Libm.cos theta) (Libm.sin theta)
          (2 * Libm.M_PI / (lseg : α)) outOfPlane lposition transform) := by
  unfold createEllipse
  simp only []
  rw [createEllipse_loop_eq _ _ _ _ _ _ _ _ lseg lseg 0 [] (by omega)]
  simp [List.range_eq_range']

theorem createEllipse_length (lambda0 lambda1 theta : α) (lseg : Nat) (outOfPlane : α)
    (lposition : Vector2D α) (transform : Transform3D α) :
    (createEllipse lambda0 lambda1 theta lseg outOfPlane lposition transform).length = lseg := by
  rw [createEllipse_eq_map]
  simp

end Loop

/-! ## Affine transforms -/

section Affine

variable {α : Type} [LinearOrderedField α]

/-- The identity transform leaves every point where it is. -/
theorem identity_apply (v : Vector3D α) : (Transform3D.Identity : Transform3D α).apply v = v := by
  funext i
  fin_cases i <;> simp [Transform3D.Identity, Transform3D.apply]

/-- The linear part of the identity transform is the unit matrix. -/
theorem identity_linear : (Transform3D.Identity : Transform3D α).linear = 1 := by
  ext i j
  simp [Transform3D.Identity, Matrix.one_apply]

/-- The determinant of the identity transform is not zero. -/
theorem identity_det_ne_zero : (Transform3D.Identity : Transform3D α).linear.det ≠ 0 := by
  rw [identity_linear]
  simp

/-- The determinant written out is the determinant of the linear part. -/
theorem det_eq (T : Transform3D α) : T.det = T.linear.det := by
  rw [Matrix.det_fin_three, Transform3D.det]
  ring

/-- The affine map is the linear part applied to the point, plus the translation. -/
theorem apply_eq_mulVec (T : Transform3D α) (v : Vector3D α) :
    T.apply v = T.linear.mulVec v + T.translation := by
  funext i
  simp [Transform3D.apply, Matrix.mulVec, Matrix.dotProduct, Fin.sum_univ_three]

/-- The inverse transform undoes an invertible transform. -/
theorem inverse_apply_apply (T : Transform3D α) (h : T.linear.det ≠ 0) (v : Vector3D α) :
    T.inverse.apply (T.apply v) = v := by
  have hd : T.det ≠ 0 := by rw [det_eq]; exact h
  have hd2 := hd
  rw [Transform3D.det] at hd2
  funext i
  fin_cases i <;>
    · simp only [Transform3D.inverse, Transform3D.apply, Transform3D.det, Matrix.of_apply,
        Matrix.cons_val_zero, Matrix.cons_val_one, Matrix.head_cons, Matrix.cons_val_two,
        Matrix.tail_cons, Matrix.cons_val', Matrix.empty_val', Matrix.cons_val_fin_one,
        Fin.zero_eta, Fin.mk_one, Fin.reduceFinMk]
      field_simp
      ring

end Affine

/-! ## The draw routines, spelled out -/

section Spelled

/-- The single draw of `drawCovarianceCartesian`, spelled out. -/
theorem drawCovarianceCartesian_eq {α : Type} [Zero α] [One α] [OfNat α 2]
    [OfNat α 4] [NatCast α] [OfScientific α] [Add α] [Sub α] [Mul α] [Div α] [Neg α] [Pow α ℕ]
    [LT α] [DecidableRel (fun a b : α => a < b)] [Libm α]
    (mesh : ConvexFaceMesh α) (helper : IVisualization α) (lposition : Vector2D α)
    (covariance : ActsSymMatrixD2 α) (T : Transform3D α) (nsigma : List Int)
    (locErrorScale : α) (lseg : Nat) (color : ColorType) (d : α) :
    drawCovarianceCartesian mesh helper lposition covariance T nsigma locErrorScale lseg color d =
      helper ++ [DrawCall.polyhedron
        ⟨createEllipse (decomposeCovariance covariance).1 (decomposeCovariance covariance).2.1
            (decomposeCovariance covariance).2.2 lseg d lposition T ++
            [T.apply ![lposition 0, lposition 1, d]],
          (mesh (createEllipse (decomposeCovariance covariance).1
            (decomposeCovariance covariance).2.1 (decomposeCovariance covariance).2.2 lseg d
            lposition T ++ [T.apply ![lposition 0, lposition 1, d]]) true).1,
          (mesh (createEllipse (decomposeCovariance covariance).1
            (decomposeCovariance covariance).2.1 (decomposeCovariance covariance).2.2 lseg d
            lposition T ++ [T.apply ![lposition 0, lposition 1, d]]) true).2⟩
        false color] := rfl

/-- The two draws of `drawCovarianceAngular`, spelled out. -/
theorem drawCovarianceAngular_eq {α : Type} [Zero α] [One α] [OfNat α 2]
    [OfNat α 4] [NatCast α] [OfScientific α] [Add α] [Sub α] [Mul α] [Div α] [Neg α] [Pow α ℕ]
    [LT α] [DecidableRel (fun a b : α => a < b)] [Libm α]
    (mesh : ConvexFaceMesh α) (helper : IVisualization α) (position direction : Vector3D α)
    (covariance : ActsSymMatrixD2 α) (nsigma : List Int) (directionScale angularErrorScale : α)
    (lseg : Nat) (color : ColorType) :
    drawCovarianceAngular mesh helper position direction covariance nsigma directionScale
        angularErrorScale lseg color =
      helper ++
        [DrawCall.polyhedron
          ⟨(createEllipse
            (angularErrorScale * directionScale * Libm.tan (decomposeCovariance covariance).1)
            (angularErrorScale * directionScale * Libm.tan (decomposeCovariance covariance).2.1)
            (decomposeCovariance covariance).2.2 lseg 0 ![0, 0]
            (eplane (position + directionScale • direction) direction)) ++ [position + directionScale • direction],
           (mesh ((createEllipse
            (angularErrorScale * directionScale * Libm.tan (decomposeCovariance covariance).1)
            (angularErrorScale * directionScale * Libm.tan (decomposeCovariance covariance).2.1)
            (decomposeCovariance covariance).2.2 lseg 0 ![0, 0]
            (eplane (position + directionScale • direction) direction)) ++ [position + directionScale • direction]) true).1,
           (mesh ((createEllipse
            (angularErrorScale * directionScale * Libm.tan (decomposeCovariance covariance).1)
            (angularErrorScale * directionScale * Libm.tan (decomposeCovariance covariance).2.1)
            (decomposeCovariance covariance).2.2 lseg 0 ![0, 0]
            (eplane (position + directionScale • direction) direction)) ++ [position + directionScale • direction]) true).2⟩
          false color,
         DrawCall.polyhedron
          ⟨(createEllipse
            (angularErrorScale * directionScale * Libm.tan (decomposeCovariance covariance).1)
            (angularErrorScale * directionScale * Libm.tan (decomposeCovariance covariance).2.1)
            (decomposeCovariance covariance).2.2 lseg 0 ![0, 0]
            (eplane (position + directionScale • direction) direction)) ++ [position],
           (mesh ((createEllipse
            (angularErrorScale * directionScale * Libm.tan (decomposeCovariance covariance).1)
            (angularErrorScale * directionScale * Libm.tan (decomposeCovariance covariance).2.1)
            (decomposeCovariance covariance).2.2 lseg 0 ![0, 0]
            (eplane (position + directionScale • direction) direction)) ++ [position]) true).1,
           (mesh ((createEllipse
            (angularErrorScale * directionScale * Libm.tan (decomposeCovariance covariance).1)
            (angularErrorScale * directionScale * Libm.tan (decomposeCovariance covariance).2.1)
            (decomposeCovariance covariance).2.2 lseg 0 ![0, 0]
            (eplane (position + directionScale • direction) direction)) ++ [position]) true).2⟩
          true color] := by
  simp [drawCovarianceAngular, Polyhedron.draw]

end Spelled

/-! ## The draw routines in terms of the named polyhedra -/

section Named

set_option linter.unusedSectionVars false

variable {α : Type} [Zero α] [One α] [OfNat α 2] [OfNat α 4] [NatCast α] [OfScientific α]
  [Add α] [Sub α] [Mul α] [Div α] [Neg α] [Pow α ℕ] [LT α]
  [DecidableRel (fun a b : α => a < b)] [Libm α]

/-- The routine `drawCovarianceCartesian` adds the draw of `ellipseHedron`, filled. -/
theorem drawCovarianceCartesian_hedron (mesh : ConvexFaceMesh α) (helper : IVisualization α)
    (lposition : Vector2D α) (covariance : ActsSymMatrixD2 α) (T : Transform3D α)
    (nsigma : List Int) (locErrorScale : α) (lseg : Nat) (color : ColorType) (d : α) :
    drawCovarianceCartesian mesh helper lposition covariance T nsigma locErrorScale lseg color d =
      helper ++ [DrawCall.polyhedron (ellipseHedron mesh lposition covariance T lseg d) false
        color] := rfl

/-- The routine `drawCovarianceAngular` adds the draws of `coneTopHedron`, filled,
and of `coneHedron`, as a wireframe. -/
theorem drawCovarianceAngular_hedra (mesh : ConvexFaceMesh α) (helper : IVisualization α)
    (position direction : Vector3D α) (covariance : ActsSymMatrixD2 α) (nsigma : List Int)
    (directionScale angularErrorScale : α) (lseg : Nat) (color : ColorType) :
    drawCovarianceAngular mesh helper position direction covariance nsigma directionScale
        angularErrorScale lseg color =
      helper ++
        [DrawCall.polyhedron (coneTopHedron mesh position direction covariance directionScale
            angularErrorScale lseg) false color,
         DrawCall.polyhedron (coneHedron mesh position direction covariance directionScale
            angularErrorScale lseg) true color] := by
  rw [drawCovarianceAngular_eq]
  rfl

/-- The draws of `drawBoundParameters` on an estimate that carries a covariance:
the optional surface draw, the arrow, the Cartesian mesh, the cap and the cone. -/
theorem drawBoundParameters_with_covariance (mesh : ConvexFaceMesh α)
    (parameters : BoundParameters α) (gctx : GeometryContext)
    (momentumScale locErrorScale angularErrorScale : α) (drawParameterSurface : Bool)
    (lseg : Nat) (pcolor scolor : ColorType) (cov : BoundSymMatrix α)
    (hcov : parameters.covariance = some cov) :
    drawBoundParameters mesh [] parameters gctx momentumScale locErrorScale angularErrorScale
        drawParameterSurface lseg pcolor scolor =
      (if drawParameterSurface then
          [DrawCall.surface parameters.referenceSurface gctx Transform3D.Identity lseg false
            scolor]
        else []) ++
      [DrawCall.arrow parameters.position
          (parameters.position +
            (norm parameters.momentum * momentumScale) • normalized parameters.momentum)
          0.025 0.05 2 72 pcolor,
        DrawCall.polyhedron
          (ellipseHedron mesh parameters.lposition (block22 cov 0 0 (by decide) (by decide))
            (parameters.referenceSurface.transform gctx) 72 0.01) false pcolor,
        DrawCall.polyhedron
          (coneTopHedron mesh parameters.position (normalized parameters.momentum)
            (block22 cov 2 2 (by decide) (by decide))
            (0.9 * norm parameters.momentum * momentumScale) angularErrorScale 72) false pcolor,
        DrawCall.polyhedron
          (coneHedron mesh parameters.position (normalized parameters.momentum)
            (block22 cov 2 2 (by decide) (by decide))
            (0.9 * norm parameters.momentum * momentumScale) angularErrorScale 72) true
          pcolor] := by
  unfold drawBoundParameters
  simp only [hcov]
  rw [drawCovarianceAngular_hedra, drawCovarianceCartesian_hedron]
  cases drawParameterSurface <;> rfl

theorem ellipseHedron_length (mesh : ConvexFaceMesh α) (lposition : Vector2D α)
    (covariance : ActsSymMatrixD2 α) (T : Transform3D α) (lseg : Nat) (d : α) :
    (ellipseHedron mesh lposition covariance T lseg d).vertices.length = lseg + 1 := by
  simp [ellipseHedron, createEllipse_length]

theorem coneTopHedron_length (mesh : ConvexFaceMesh α) (position direction : Vector3D α)
    (covariance : ActsSymMatrixD2 α) (directionScale angularErrorScale : α) (lseg : Nat) :
    (coneTopHedron mesh position direction covariance directionScale angularErrorScale
      lseg).vertices.length = lseg + 1 := by
  simp [coneTopHedron, angularEllipse, createEllipse_length]

theorem coneHedron_length (mesh : ConvexFaceMesh α) (position direction : Vector3D α)
    (covariance : ActsSymMatrixD2 α) (directionScale angularErrorScale : α) (lseg : Nat) :
    (coneHedron mesh position direction covariance directionScale angularErrorScale
      lseg).vertices.length = lseg + 1 := by
  simp [coneHedron, angularEllipse, createEllipse_length]

end Named

section NamedExact

variable {α : Type} [LinearOrderedField α] [Libm α]

end NamedExact


/-! ## decomposeCovariance: round trip, special cases, ordering -/

section Decompose

/-- The three components of `decomposeCovariance` over the reals, spelled out. -/
theorem decomposeCovariance_real (c00 c01 c11 : ℝ) :
    decomposeCovariance !![c00, c01; c01, c11] =
      ((c00 + c11) / 2 + Real.sqrt ((c00 - c11) ^ 2 / 4 + c01 * c01),
       (c00 + c11) / 2 - Real.sqrt ((c00 - c11) ^ 2 / 4 + c01 * c01),
       Libm.atan2 ((c00 + c11) / 2 + Real.sqrt ((c00 - c11) ^ 2 / 4 + c01 * c01) - c00) c01) := by
  simp [decomposeCovariance, eLOC_0, eLOC_1, real_sqrt_eq]

/-- The radicand of `decomposeCovariance` is a sum of squares. -/
theorem radicand_nonneg (c00 c01 c11 : ℝ) : 0 ≤ (c00 - c11) ^ 2 / 4 + c01 * c01 :=
  add_nonneg (by positivity) (mul_self_nonneg c01)

/-- C1: round trip of `decomposeCovariance` over the reals. For every real
symmetric covariance `(c00, c01, c11)`, with `(lambda0, lambda1, theta)` the
result of `decomposeCovariance`, `lambda0 cos² theta + lambda1 sin² theta = c00`,
`lambda0 sin² theta + lambda1 cos² theta = c11` and
`(lambda0 - lambda1) sin theta cos theta = c01`. -/
theorem decomposeCovariance_round_trip (c00 c01 c11 : ℝ) :
    (decomposeCovariance !![c00, c01; c01, c11]).1 *
          Real.cos (decomposeCovariance !![c00, c01; c01, c11]).2.2 ^ 2 +
        (decomposeCovariance !![c00, c01; c01, c11]).2.1 *
          Real.sin (decomposeCovariance !![c00, c01; c01, c11]).2.2 ^ 2 = c00 ∧
    (decomposeCovariance !![c00, c01; c01, c11]).1 *
          Real.sin (decomposeCovariance !![c00, c01; c01, c11]).2.2 ^ 2 +
        (decomposeCovariance !![c00, c01; c01, c11]).2.1 *
          Real.cos (decomposeCovariance !![c00, c01; c01, c11]).2.2 ^ 2 = c11 ∧
    ((decomposeCovariance !![c00, c01; c01, c11]).1 -
          (decomposeCovariance !![c00, c01; c01, c11]).2.1) *
        Real.sin (decomposeCovariance !![c00, c01; c01, c11]).2.2 *
        Real.cos (decomposeCovariance !![c00, c01; c01, c11]).2.2 = c01 := by
  rw [decomposeCovariance_real]
  simp only []
  have hs : Real.sqrt ((c00 - c11) ^ 2 / 4 + c01 * c01) ^ 2 = (c00 - c11) ^ 2 / 4 + c01 * c01 :=
    Real.sq_sqrt (radicand_nonneg c00 c01 c11)
  generalize Real.sqrt ((c00 - c11) ^ 2 / 4 + c01 * c01) = s at hs ⊢
  by_cases h0 : c01 = 0 ∧ (c00 + c11) / 2 + s - c00 = 0
  · obtain ⟨ha, hb⟩ := h0
    rw [hb, ha, atan2_zero_zero]
    simp only [Real.cos_zero, Real.sin_zero]
    refine ⟨?_, ?_, ?_⟩
    · linarith
    · linarith
    · ring
  · have hne : c01 ≠ 0 ∨ (c00 + c11) / 2 + s - c00 ≠ 0 := by
      by_contra hcon
      push_neg at hcon
      exact h0 hcon
    obtain ⟨hc, hsn, hsc⟩ := atan2_trig ((c00 + c11) / 2 + s - c00) c01 hne
    have hn : c01 ^ 2 + ((c00 + c11) / 2 + s - c00) ^ 2 ≠ 0 := by
      rcases hne with h | h
      · have := pow_pos (abs_pos.mpr h) 2
        rw [sq_abs] at this
        positivity
      · have := pow_pos (abs_pos.mpr h) 2
        rw [sq_abs] at this
        positivity
    generalize Real.cos (Libm.atan2 ((c00 + c11) / 2 + s - c00) c01) = C at hc hsn hsc ⊢
    generalize Real.sin (Libm.atan2 ((c00 + c11) / 2 + s - c00) c01) = S at hc hsn hsc ⊢
    refine ⟨?_, ?_, ?_⟩
    · apply mul_right_cancel₀ hn
      linear_combination ((c00 + c11) / 2 + s) * hc + ((c00 + c11) / 2 - s) * hsn -
        ((c00 + c11) / 2 + s - c00) * hs
    · apply mul_right_cancel₀ hn
      linear_combination ((c00 + c11) / 2 + s) * hsn + ((c00 + c11) / 2 - s) * hc +
        ((c00 + c11) / 2 + s - c00) * hs
    · apply mul_right_cancel₀ hn
      linear_combination (2 * s) * hsc + c01 * hs

/-- On a diagonal covariance with `c11 ≤ c00` the square root is half the difference. -/
theorem sqrt_diag (c00 c11 : ℝ) (h : c11 ≤ c00) :
    Real.sqrt ((c00 - c11) ^ 2 / 4 + 0 * 0) = (c00 - c11) / 2 := by
  have h2 : (c00 - c11) ^ 2 / 4 + 0 * 0 = ((c00 - c11) / 2) ^ 2 := by ring
  rw [h2, Real.sqrt_sq (by linarith)]

end Decompose

/-! ## createEllipse: reference form and the isotropic circle -/

section Ellipse

/-- C6, amended: isotropic case in exact real arithmetic. For every `v ≥ 0`,
`decomposeCovariance` of `(v, 0, v)` returns `lambda0 = lambda1 = v`, and for
every angle, segment count `N` and anchor, under the identity transform the loop
`createEllipse(v, v, theta, N, 0, anchor)` has `N` points, each at Euclidean
distance `sqrt v` from the anchor. -/
theorem isotropic_circle (v : ℝ) (hv : 0 ≤ v) (theta : ℝ) (N : ℕ) (anchor : Vector2D ℝ) :
    (decomposeCovariance !![v, 0; 0, v]).1 = v ∧
    (decomposeCovariance !![v, 0; 0, v]).2.1 = v ∧
    (createEllipse v v theta N 0 anchor Transform3D.Identity).length = N ∧
    ∀ p ∈ createEllipse v v theta N 0 anchor Transform3D.Identity,
      Real.sqrt ((p 0 - anchor 0) ^ 2 + (p 1 - anchor 1) ^ 2 + (p 2 - 0) ^ 2) = Real.sqrt v := by
  have hd : decomposeCovariance !![v, 0; 0, v] = (v, v, 0) := by
    rw [decomposeCovariance_real, sqrt_diag v v le_rfl]
    have e0 : (v + v) / 2 + (v - v) / 2 = v := by ring
    have e1 : (v + v) / 2 - (v - v) / 2 = v := by ring
    rw [e0, e1, sub_self, atan2_zero_zero]
  refine ⟨by rw [hd], by rw [hd], createEllipse_length _ _ _ _ _ _ _, ?_⟩
  intro p hp
  rw [createEllipse_eq_map, List.mem_map] at hp
  obtain ⟨i, _, rfl⟩ := hp
  rw [loopPoint, identity_apply]
  simp only [Matrix.cons_val_zero, Matrix.cons_val_one, Matrix.head_cons, Matrix.cons_val_two,
    Matrix.tail_cons, real_sqrt_eq, real_cos_eq, real_sin_eq]
  congr 1
  have hl : Real.sqrt v ^ 2 = v := Real.sq_sqrt hv
  have h1 := Real.sin_sq_add_cos_sq theta
  have h2 := Real.sin_sq_add_cos_sq (-Libm.M_PI + (i : ℝ) * (2 * Libm.M_PI / (N : ℝ)))
  generalize Real.sqrt v = l at hl
  generalize Real.cos theta = c at h1
  generalize Real.sin theta = s at h1
  generalize Real.cos (-Libm.M_PI + (i : ℝ) * (2 * Libm.M_PI / (N : ℝ))) = cp at h2
  generalize Real.sin (-Libm.M_PI + (i : ℝ) * (2 * Libm.M_PI / (N : ℝ))) = sp at h2
  linear_combination (l ^ 2 * (sp ^ 2 + cp ^ 2)) * h1 + l ^ 2 * h2 + hl

/-- C6 amended, at `v = 1`: the covariance `(1, 0, 1)` gives `lambda0 = lambda1 = 1`
and a loop of 8 points on the circle of radius `sqrt 1` (turned by `theta = 1/2`). -/
theorem isotropic_circle_witness :
    (0 : ℝ) ≤ 1 ∧
    ((decomposeCovariance !![(1 : ℝ), 0; 0, 1]).1 = 1 ∧
     (decomposeCovariance !![(1 : ℝ), 0; 0, 1]).2.1 = 1 ∧
     (createEllipse (1 : ℝ) 1 (1 / 2) 8 0 ![3, 4] Transform3D.Identity).length = 8 ∧
     ∀ p ∈ createEllipse (1 : ℝ) 1 (1 / 2) 8 0 ![3, 4] Transform3D.Identity,
       Real.sqrt ((p 0 - (![3, 4] : Vector2D ℝ) 0) ^ 2 + (p 1 - (![3, 4] : Vector2D ℝ) 1) ^ 2 +
         (p 2 - 0) ^ 2) = Real.sqrt 1) :=
  ⟨by norm_num, isotropic_circle 1 (by norm_num) (1 / 2) 8 ![3, 4]⟩

end Ellipse

/-! ## drawCovarianceCartesian: the mesh and its planarity -/

section Cartesian

/-- C9: Cartesian mode emits one filled mesh fanned from the anchor. For every
anchor, covariance, transform `T`, offset `d` and segment count `N`,
`drawCovarianceCartesian` adds exactly one draw, a polyhedron drawn with flag
`false` (filled) in the given colour, whose `N + 1` vertices are the `N` points of
`createEllipse(lambda0, lambda1, theta, N, d, lposition, T)` followed by
`T (lposition.x, lposition.y, d)`. -/
theorem drawCovarianceCartesian_one_filled_mesh (mesh : ConvexFaceMesh ℝ)
    (helper : IVisualization ℝ) (lposition : Vector2D ℝ) (covariance : ActsSymMatrixD2 ℝ)
    (T : Transform3D ℝ) (nsigma : List Int) (locErrorScale : ℝ) (N : ℕ) (color : ColorType)
    (d : ℝ) :
    ∃ hedron : Polyhedron ℝ,
      drawCovarianceCartesian mesh helper lposition covariance T nsigma locErrorScale N color d =
        helper ++ [DrawCall.polyhedron hedron false color] ∧
      hedron.vertices =
        createEllipse (decomposeCovariance covariance).1 (decomposeCovariance covariance).2.1
          (decomposeCovariance covariance).2.2 N d lposition T ++
          [T.apply ![lposition 0, lposition 1, d]] ∧
      hedron.vertices.length = N + 1 ∧
      hedron.faces = (mesh hedron.vertices true).1 ∧
      hedron.triangularMesh = (mesh hedron.vertices true).2 := by
  refine ⟨_, drawCovarianceCartesian_eq mesh helper lposition covariance T nsigma locErrorScale N
    color d, rfl, ?_, rfl, rfl⟩
  simp [createEllipse_length]

end Cartesian

/-! ## drawCovarianceAngular: the two meshes and the tangent frame -/

section Angular

/-- C8: angular mode emits exactly two meshes built on the same rim. For every
position, direction, covariance, scales and segment count `N`,
`drawCovarianceAngular` adds exactly two draws, in this order: a polyhedron drawn
with flag `false` (filled cap) whose vertices are the `N` rim points followed by
the anchor `position + directionScale * direction`, then a polyhedron drawn with
flag `true` (wireframe cone) whose vertices are the same rim points followed by
`position`; both in the given colour, the rim generated with offset `0`. -/
theorem drawCovarianceAngular_two_meshes (mesh : ConvexFaceMesh ℝ) (helper : IVisualization ℝ)
    (position direction : Vector3D ℝ) (covariance : ActsSymMatrixD2 ℝ) (nsigma : List Int)
    (directionScale angularErrorScale : ℝ) (N : ℕ) (color : ColorType) :
    ∃ (rim : List (Vector3D ℝ)) (cap cone : Polyhedron ℝ),
      rim = createEllipse
          (angularErrorScale * directionScale * Real.tan (decomposeCovariance covariance).1)
          (angularErrorScale * directionScale * Real.tan (decomposeCovariance covariance).2.1)
          (decomposeCovariance covariance).2.2 N 0 ![0, 0]
          (eplane (position + directionScale • direction) direction) ∧
      rim.length = N ∧
      drawCovarianceAngular mesh helper position direction covariance nsigma directionScale
          angularErrorScale N color =
        helper ++ [DrawCall.polyhedron cap false color, DrawCall.polyhedron cone true color] ∧
      cap.vertices = rim ++ [position + directionScale • direction] ∧
      cone.vertices = rim ++ [position] ∧
      cap.faces = (mesh cap.vertices true).1 ∧ cap.triangularMesh = (mesh cap.vertices true).2 ∧
      cone.faces = (mesh cone.vertices true).1 ∧
      cone.triangularMesh = (mesh cone.vertices true).2 := by
  exact ⟨_, _, _, rfl, createEllipse_length _ _ _ _ _ _ _,
    drawCovarianceAngular_eq mesh helper position direction covariance nsigma directionScale
      angularErrorScale N color, rfl, rfl, rfl, rfl, rfl, rfl⟩

/-- The linear part of `eplane` sends the local unit vector `(0, 0, 1)` to
`(0, -sin dtheta, cos dtheta)`, whatever the azimuth `dphi`. -/
theorem eplane_linear_local_z (anker direction : Vector3D ℝ) :
    (eplane anker direction).linear.mulVec ![0, 0, 1] =
      ![0, -Real.sin (VectorHelpers.theta direction),
        Real.cos (VectorHelpers.theta direction)] := by
  ext i
  fin_cases i <;>
    simp [eplane, Transform3D.mul, AngleAxis3D, Translation3D, Matrix.mulVec, Matrix.dotProduct,
      Fin.sum_univ_three, Matrix.mul_apply, real_sin_eq, real_cos_eq]

/-- The polar angle of the unit vector `(1, 0, 0)` is `pi / 2`. -/
theorem theta_unit_x : VectorHelpers.theta (![1, 0, 0] : Vector3D ℝ) = Real.pi / 2 := by
  simp only [VectorHelpers.theta, real_atan2_eq, real_sqrt_eq, Matrix.cons_val_zero,
    Matrix.cons_val_one, Matrix.head_cons, Matrix.cons_val_two, Matrix.tail_cons]
  have h1 : Real.sqrt ((1 : ℝ) * 1 + 0 * 0) = 1 := by norm_num
  rw [h1]
  have h2 : (⟨0, 1⟩ : ℂ) = Complex.I := rfl
  rw [h2, Complex.arg_I]

/-- C5, evaluated at the unit direction `(1, 0, 0)`: the linear part of the frame
`eplane` sends the local unit vector `(0, 0, 1)` to `(0, -1, 0)`, which is not the
direction (it is perpendicular to it). -/
theorem eplane_local_z_at_unit_x (anker : Vector3D ℝ) :
    squaredNorm (![1, 0, 0] : Vector3D ℝ) = 1 ∧
    (eplane anker ![1, 0, 0]).linear.mulVec ![0, 0, 1] = ![0, -1, 0] ∧
    (eplane anker ![1, 0, 0]).linear.mulVec ![0, 0, 1] ≠ ![1, 0, 0] := by
  have h : (eplane anker ![1, 0, 0]).linear.mulVec ![0, 0, 1] = ![0, -1, 0] := by
    rw [eplane_linear_local_z, theta_unit_x, Real.sin_pi_div_two, Real.cos_pi_div_two]
  refine ⟨by simp [squaredNorm], h, ?_⟩
  rw [h]
  intro hcon
  have := congrFun hcon 0
  simp at this

end Angular

/-! ## drawBoundParameters without a covariance -/

section Bound

/-- C4: no-covariance scenario. For every estimate whose covariance is absent,
`drawBoundParameters` adds exactly one arrow draw and no mesh draw, preceded by
exactly one surface draw when `drawParameterSurface` is true and by none when it
is false; the routine returns normally. -/
theorem drawBoundParameters_no_covariance (mesh : ConvexFaceMesh ℝ)
    (parameters : BoundParameters ℝ) (gctx : GeometryContext)
    (momentumScale locErrorScale angularErrorScale : ℝ) (drawParameterSurface : Bool)
    (lseg : ℕ) (pcolor scolor : ColorType) (h : parameters.covariance = none) :
    drawBoundParameters mesh [] parameters gctx momentumScale locErrorScale angularErrorScale
        drawParameterSurface lseg pcolor scolor =
      (if drawParameterSurface then
          [DrawCall.surface parameters.referenceSurface gctx Transform3D.Identity lseg false
            scolor]
        else []) ++
      [DrawCall.arrow parameters.position
        (parameters.position +
          (norm parameters.momentum * momentumScale) • normalized parameters.momentum)
        0.025 0.05 2 72 pcolor] ∧
    (drawBoundParameters mesh [] parameters gctx momentumScale locErrorScale angularErrorScale
        drawParameterSurface lseg pcolor scolor).countP DrawCall.isArrow = 1 ∧
    (drawBoundParameters mesh [] parameters gctx momentumScale locErrorScale angularErrorScale
        drawParameterSurface lseg pcolor scolor).countP DrawCall.isPolyhedron = 0 ∧
    (drawBoundParameters mesh [] parameters gctx momentumScale locErrorScale angularErrorScale
        drawParameterSurface lseg pcolor scolor).countP DrawCall.isSurface =
      (if drawParameterSurface then 1 else 0) := by
  have key : drawBoundParameters mesh [] parameters gctx momentumScale locErrorScale
      angularErrorScale drawParameterSurface lseg pcolor scolor =
      (if drawParameterSurface then
          [DrawCall.surface parameters.referenceSurface gctx Transform3D.Identity lseg false
            scolor]
        else []) ++
      [DrawCall.arrow parameters.position
        (parameters.position +
          (norm parameters.momentum * momentumScale) • normalized parameters.momentum)
        0.025 0.05 2 72 pcolor] := by
    unfold drawBoundParameters
    simp only [h]
    cases drawParameterSurface <;> simp [drawArrowForward, drawSurface]
  rw [key]
  refine ⟨rfl, ?_, ?_, ?_⟩ <;>
    cases drawParameterSurface <;>
    simp [List.countP_cons, DrawCall.isArrow, DrawCall.isPolyhedron, DrawCall.isSurface]

/-- C4, at an estimate at the origin with momentum `(0, 0, 2)` and no covariance,
surface drawing switched on. -/
theorem drawBoundParameters_no_covariance_witness :
    (BoundParameters.mk (![0, 0, 0] : Vector3D ℝ) ![0, 0, 2] none
        ⟨fun _ => Transform3D.Identity⟩ (fun _ => 0)).covariance = none ∧
    (drawBoundParameters (fun _ _ => ([], [])) []
        (BoundParameters.mk (![0, 0, 0] : Vector3D ℝ) ![0, 0, 2] none
          ⟨fun _ => Transform3D.Identity⟩ (fun _ => 0))
        ⟨0⟩ 1 1 1 true 72 (20, 120, 20) (235, 198, 52)).countP DrawCall.isArrow = 1 ∧
    (drawBoundParameters (fun _ _ => ([], [])) []
        (BoundParameters.mk (![0, 0, 0] : Vector3D ℝ) ![0, 0, 2] none
          ⟨fun _ => Transform3D.Identity⟩ (fun _ => 0))
        ⟨0⟩ 1 1 1 true 72 (20, 120, 20) (235, 198, 52)).countP DrawCall.isPolyhedron = 0 ∧
    (drawBoundParameters (fun _ _ => ([], [])) []
        (BoundParameters.mk (![0, 0, 0] : Vector3D ℝ) ![0, 0, 2] none
          ⟨fun _ => Transform3D.Identity⟩ (fun _ => 0))
        ⟨0⟩ 1 1 1 true 72 (20, 120, 20) (235, 198, 52)).countP DrawCall.isSurface = 1 :=
  ⟨rfl,
   (drawBoundParameters_no_covariance (fun _ _ => ([], []))
      (BoundParameters.mk (![0, 0, 0] : Vector3D ℝ) ![0, 0, 2] none
        ⟨fun _ => Transform3D.Identity⟩ (fun _ => 0))
      ⟨0⟩ 1 1 1 true 72 (20, 120, 20) (235, 198, 52) rfl).2⟩

end Bound

/-! ## createEllipse: the loop is open -/

section OpenLoop

/-- An invertible transform sends different points to different points. -/
theorem apply_injective {α : Type} [LinearOrderedField α] (T : Transform3D α)
    (h : T.linear.det ≠ 0) (v w : Vector3D α) (hvw : T.apply v = T.apply w) : v = w := by
  have := congrArg T.inverse.apply hvw
  rwa [inverse_apply_apply T h, inverse_apply_apply T h] at this

/-- The azimuth of the last sample is `pi - 2 pi / N`, whose sine is positive
from three segments on. -/
theorem sin_last_azimuth_pos (N : ℕ) (hN : 3 ≤ N) :
    0 < Real.sin (-Real.pi + ((N - 1 : ℕ) : ℝ) * (2 * Real.pi / (N : ℝ))) := by
  have hN0 : (0 : ℝ) < N := by
    have : 0 < N := by omega
    exact_mod_cast this
  have hN3 : (3 : ℝ) ≤ N := by exact_mod_cast hN
  have hcast : ((N - 1 : ℕ) : ℝ) = (N : ℝ) - 1 := by
    rw [Nat.cast_sub (by omega)]
    simp
  have harg : -Real.pi + ((N - 1 : ℕ) : ℝ) * (2 * Real.pi / (N : ℝ)) =
      Real.pi - 2 * Real.pi / (N : ℝ) := by
    rw [hcast]
    field_simp
    ring
  rw [harg, Real.sin_pi_sub]
  have hpi := Real.pi_pos
  apply Real.sin_pos_of_pos_of_lt_pi
  · positivity
  · rw [div_lt_iff₀ hN0]
    nlinarith

/-- C11, amended: the point loop is open in exact real arithmetic. For every
segment count `N ≥ 3`, every `lambda0 > 0` and `lambda1 > 0`, every angle, offset
and anchor and every invertible affine transform, the loop of `createEllipse`
has a first and a last point, and the last point differs from the first. -/
theorem createEllipse_open (lambda0 lambda1 theta : ℝ) (N : ℕ) (offset : ℝ)
    (anchor : Vector2D ℝ) (T : Transform3D ℝ) (hN : 3 ≤ N) (_h0 : 0 < lambda0)
    (h1 : 0 < lambda1) (hT : T.linear.det ≠ 0) :
    ∃ first last : Vector3D ℝ,
      (createEllipse lambda0 lambda1 theta N offset anchor T).head? = some first ∧
      (createEllipse lambda0 lambda1 theta N offset anchor T).getLast? = some last ∧
      last ≠ first := by
  have hN0 : N ≠ 0 := by omega
  rw [createEllipse_eq_map]
  refine ⟨loopPoint (Libm.sqrt lambda0) (Libm.sqrt lambda1) (Libm.cos theta) (Libm.sin theta)
      (2 * Libm.M_PI / (N : ℝ)) offset anchor T 0,
    loopPoint (Libm.sqrt lambda0) (Libm.sqrt lambda1) (Libm.cos theta) (Libm.sin theta)
      (2 * Libm.M_PI / (N : ℝ)) offset anchor T (N - 1), ?_, ?_, ?_⟩
  · rw [List.head?_map, List.head?_range, if_neg hN0]
    rfl
  · rw [List.getLast?_map, List.getLast?_range, if_neg hN0]
    rfl
  · intro hcon
    have hv := apply_injective T hT _ _ hcon
    have hx := congrFun hv 0
    have hy := congrFun hv 1
    simp only [Matrix.cons_val_zero, Matrix.cons_val_one, Matrix.head_cons, real_sqrt_eq,
      real_cos_eq, real_sin_eq] at hx hy
    have hsin := sin_last_azimuth_pos N hN
    have hl : 0 < Real.sqrt lambda1 := Real.sqrt_pos.mpr h1
    have hcs := Real.sin_sq_add_cos_sq theta
    have hM : (Libm.M_PI : ℝ) = Real.pi := rfl
    rw [hM] at hx hy
    have hzero : Real.sin (-Real.pi + ((0 : ℕ) : ℝ) * (2 * Real.pi / (N : ℝ))) = 0 := by
      simp
    have hczero : Real.cos (-Real.pi + ((0 : ℕ) : ℝ) * (2 * Real.pi / (N : ℝ))) = -1 := by
      simp
    rw [hzero, hczero] at hx hy
    generalize Real.sin (-Real.pi + ((N - 1 : ℕ) : ℝ) * (2 * Real.pi / (N : ℝ))) = sp
      at hx hy hsin
    generalize Real.cos (-Real.pi + ((N - 1 : ℕ) : ℝ) * (2 * Real.pi / (N : ℝ))) = cp at hx hy
    generalize Real.sqrt lambda1 = l1 at hx hy hl
    generalize Real.sqrt lambda0 = l0 at hx hy
    generalize Real.sin theta = s at hx hy hcs
    generalize Real.cos theta = c at hx hy hcs
    have hprod : l1 * sp = 0 := by
      linear_combination (-s) * hx + c * hy - (l1 * sp) * hcs
    have hpos : 0 < l1 * sp := mul_pos hl hsin
    linarith

/-- C11 amended, at three segments, the unit circle around `(1, 2)`, offset `0`
and the identity transform. -/
theorem createEllipse_open_witness :
    3 ≤ 3 ∧ (0 : ℝ) < 1 ∧ (Transform3D.Identity : Transform3D ℝ).linear.det ≠ 0 ∧
    ∃ first last : Vector3D ℝ,
      (createEllipse (1 : ℝ) 1 0 3 0 ![1, 2] Transform3D.Identity).head? = some first ∧
      (createEllipse (1 : ℝ) 1 0 3 0 ![1, 2] Transform3D.Identity).getLast? = some last ∧
      last ≠ first :=
  ⟨le_refl 3, by norm_num, identity_det_ne_zero,
   createEllipse_open 1 1 0 3 0 ![1, 2] Transform3D.Identity (le_refl 3) (by norm_num)
     (by norm_num) identity_det_ne_zero⟩

end OpenLoop

/-! ## The default out-of-plane offset -/

section DefaultOffset

end DefaultOffset

/-! ## drawBoundParameters with a covariance: arrow and cone -/

section Cone

/-- A non-zero real vector has a positive squared norm. -/
theorem squaredNorm_pos (v : Vector3D ℝ) (hv : v ≠ 0) : 0 < squaredNorm v := by
  by_contra hcon
  apply hv
  have h0 := mul_self_nonneg (v 0)
  have h1 := mul_self_nonneg (v 1)
  have h2 := mul_self_nonneg (v 2)
  unfold squaredNorm at hcon
  have e0 : v 0 * v 0 = 0 := by linarith
  have e1 : v 1 * v 1 = 0 := by linarith
  have e2 : v 2 * v 2 = 0 := by linarith
  funext i
  fin_cases i
  · exact mul_self_eq_zero.mp e0
  · exact mul_self_eq_zero.mp e1
  · exact mul_self_eq_zero.mp e2

/-- For a non-zero momentum, `normalized` is the division by the norm. -/
theorem normalized_eq_div_norm (v : Vector3D ℝ) (hv : v ≠ 0) :
    normalized v = fun i => v i / norm v := by
  unfold normalized
  simp only []
  rw [if_pos (squaredNorm_pos v hv)]
  rfl

/-- The momentum `(0, 0, 2)` is not zero. -/
theorem momentum_ne_zero_sample : (![0, 0, 2] : Vector3D ℝ) ≠ 0 := by
  intro h
  have := congrFun h 2
  simp at this

/-- C13, amended: the cone is 0.9 of the arrow. For every estimate with a
covariance and a non-zero momentum `p`, `drawBoundParameters` draws, after the
optional surface, the arrow from `position` to
`tip = position + |p| * momentumScale * direction` with `direction = p / |p|`,
then the Cartesian mesh, then the two meshes of `drawCovarianceAngular` called
with `directionScale = 0.9 * |p| * momentumScale`; the last vertex of the cap
drawn (its centre, the anchor) is `position + directionScale * direction`, which
in exact real arithmetic equals `position + 0.9 * (tip - position)`, and the last
vertex of the wireframe cone drawn (its apex) is `position`. -/
theorem drawBoundParameters_cone_of_arrow (mesh : ConvexFaceMesh ℝ)
    (parameters : BoundParameters ℝ) (gctx : GeometryContext)
    (momentumScale locErrorScale angularErrorScale : ℝ) (drawParameterSurface : Bool)
    (lseg : ℕ) (pcolor scolor : ColorType) (cov : BoundSymMatrix ℝ)
    (hcov : parameters.covariance = some cov) (hp : parameters.momentum ≠ 0) :
    ∃ (direction tip : Vector3D ℝ) (cart cap cone : Polyhedron ℝ),
      direction = (fun i => parameters.momentum i / norm parameters.momentum) ∧
      tip = parameters.position + (norm parameters.momentum * momentumScale) • direction ∧
      drawBoundParameters mesh [] parameters gctx momentumScale locErrorScale angularErrorScale
          drawParameterSurface lseg pcolor scolor =
        (if drawParameterSurface then
            [DrawCall.surface parameters.referenceSurface gctx Transform3D.Identity lseg false
              scolor]
          else []) ++
        [DrawCall.arrow parameters.position tip 0.025 0.05 2 72 pcolor,
         DrawCall.polyhedron cart false pcolor,
         DrawCall.polyhedron cap false pcolor,
         DrawCall.polyhedron cone true pcolor] ∧
      [DrawCall.polyhedron cap false pcolor, DrawCall.polyhedron cone true pcolor] =
        drawCovarianceAngular mesh [] parameters.position direction
          (block22 cov 2 2 (by decide) (by decide)) [3]
          (0.9 * norm parameters.momentum * momentumScale) angularErrorScale 72 pcolor ∧
      cap.vertices.getLast? =
        some (parameters.position +
          (0.9 * norm parameters.momentum * momentumScale) • direction) ∧
      parameters.position + (0.9 * norm parameters.momentum * momentumScale) • direction =
        parameters.position + (0.9 : ℝ) • (tip - parameters.position) ∧
      cone.vertices.getLast? = some parameters.position := by
  refine ⟨normalized parameters.momentum,
    parameters.position +
      (norm parameters.momentum * momentumScale) • normalized parameters.momentum,
    ellipseHedron mesh parameters.lposition (block22 cov 0 0 (by decide) (by decide))
      (parameters.referenceSurface.transform gctx) 72 0.01,
    coneTopHedron mesh parameters.position (normalized parameters.momentum)
      (block22 cov 2 2 (by decide) (by decide))
      (0.9 * norm parameters.momentum * momentumScale) angularErrorScale 72,
    coneHedron mesh parameters.position (normalized parameters.momentum)
      (block22 cov 2 2 (by decide) (by decide))
      (0.9 * norm parameters.momentum * momentumScale) angularErrorScale 72,
    normalized_eq_div_norm _ hp, rfl,
    drawBoundParameters_with_covariance mesh parameters gctx momentumScale locErrorScale
      angularErrorScale drawParameterSurface lseg pcolor scolor cov hcov,
    ?_, ?_, ?_, ?_⟩
  · rw [drawCovarianceAngular_hedra]
    rfl
  · simp only [coneTopHedron, List.getLast?_concat]
  · congr 1
    funext i
    simp only [Pi.add_apply, Pi.smul_apply, Pi.sub_apply, smul_eq_mul]
    ring
  · simp only [coneHedron, List.getLast?_concat]

/-- C13 amended, at an estimate at `(1, 1, 1)` with momentum `(0, 0, 2)`, the
identity as covariance, `momentumScale = 1` and no surface draw. -/
theorem drawBoundParameters_cone_of_arrow_witness :
    (BoundParameters.mk (![1, 1, 1] : Vector3D ℝ) ![0, 0, 2] (some 1)
        ⟨fun _ => Transform3D.Identity⟩ (fun _ => 0)).covariance = some 1 ∧
    (BoundParameters.mk (![1, 1, 1] : Vector3D ℝ) ![0, 0, 2] (some 1)
        ⟨fun _ => Transform3D.Identity⟩ (fun _ => 0)).momentum ≠ 0 ∧
    ∃ (direction tip : Vector3D ℝ) (cart cap cone : Polyhedron ℝ),
      direction = (fun i => (![0, 0, 2] : Vector3D ℝ) i / norm (![0, 0, 2] : Vector3D ℝ)) ∧
      tip = (![1, 1, 1] : Vector3D ℝ) + (norm (![0, 0, 2] : Vector3D ℝ) * 1) • direction ∧
      drawBoundParameters (fun _ _ => ([], [])) []
          (BoundParameters.mk (![1, 1, 1] : Vector3D ℝ) ![0, 0, 2] (some 1)
            ⟨fun _ => Transform3D.Identity⟩ (fun _ => 0))
          ⟨0⟩ 1 1 1 false 72 (20, 120, 20) (235, 198, 52) =
        [DrawCall.arrow ![1, 1, 1] tip 0.025 0.05 2 72 (20, 120, 20),
         DrawCall.polyhedron cart false (20, 120, 20),
         DrawCall.polyhedron cap false (20, 120, 20),
         DrawCall.polyhedron cone true (20, 120, 20)] ∧
      [DrawCall.polyhedron cap false (20, 120, 20),
          DrawCall.polyhedron cone true (20, 120, 20)] =
        drawCovarianceAngular (fun _ _ => ([], [])) [] ![1, 1, 1] direction
          (block22 (1 : BoundSymMatrix ℝ) 2 2 (by decide) (by decide)) [3]
          (0.9 * norm (![0, 0, 2] : Vector3D ℝ) * 1) 1 72 (20, 120, 20) ∧
      cap.vertices.getLast? =
        some ((![1, 1, 1] : Vector3D ℝ) +
          (0.9 * norm (![0, 0, 2] : Vector3D ℝ) * 1) • direction) ∧
      (![1, 1, 1] : Vector3D ℝ) + (0.9 * norm (![0, 0, 2] : Vector3D ℝ) * 1) • direction =
        (![1, 1, 1] : Vector3D ℝ) + (0.9 : ℝ) • (tip - ![1, 1, 1]) ∧
      cone.vertices.getLast? = some ![1, 1, 1] :=
  ⟨rfl, momentum_ne_zero_sample,
   drawBoundParameters_cone_of_arrow (fun _ _ => ([], []))
     (BoundParameters.mk (![1, 1, 1] : Vector3D ℝ) ![0, 0, 2] (some 1)
       ⟨fun _ => Transform3D.Identity⟩ (fun _ => 0))
     ⟨0⟩ 1 1 1 false 72 (20, 120, 20) (235, 198, 52) 1 rfl momentum_ne_zero_sample⟩

end Cone

/-! ## Arguments that never reach the meshes -/

section Unused

/-- C14: the sigma-multiplier list is a no-op. For any two lists `nsigma` and
`nsigma'`, with all other arguments equal, `drawCovarianceCartesian` emits the
same draw calls, and so does `drawCovarianceAngular`; whatever the list, one
contour is drawn: one mesh in Cartesian mode, cap and cone on one rim in angular
mode. -/
theorem nsigma_is_a_no_op (mesh : ConvexFaceMesh ℝ) (helper : IVisualization ℝ)
    (lposition : Vector2D ℝ) (covariance : ActsSymMatrixD2 ℝ) (T : Transform3D ℝ)
    (locErrorScale : ℝ) (lseg : ℕ) (color : ColorType) (d : ℝ)
    (position direction : Vector3D ℝ) (directionScale angularErrorScale : ℝ)
    (nsigma nsigma' : List Int) :
    drawCovarianceCartesian mesh helper lposition covariance T nsigma locErrorScale lseg color d =
      drawCovarianceCartesian mesh helper lposition covariance T nsigma' locErrorScale lseg
        color d ∧
    drawCovarianceAngular mesh helper position direction covariance nsigma directionScale
        angularErrorScale lseg color =
      drawCovarianceAngular mesh helper position direction covariance nsigma' directionScale
        angularErrorScale lseg color ∧
    (drawCovarianceCartesian mesh [] lposition covariance T nsigma locErrorScale lseg color
      d).length = 1 ∧
    drawCovarianceAngular mesh [] position direction covariance nsigma directionScale
        angularErrorScale lseg color =
      [DrawCall.polyhedron (coneTopHedron mesh position direction covariance directionScale
          angularErrorScale lseg) false color,
       DrawCall.polyhedron (coneHedron mesh position direction covariance directionScale
          angularErrorScale lseg) true color] ∧
    (coneTopHedron mesh position direction covariance directionScale angularErrorScale
        lseg).vertices =
      angularEllipse position direction covariance directionScale angularErrorScale lseg ++
        [position + directionScale • direction] ∧
    (coneHedron mesh position direction covariance directionScale angularErrorScale
        lseg).vertices =
      angularEllipse position direction covariance directionScale angularErrorScale lseg ++
        [position] := by
  refine ⟨rfl, rfl, ?_, ?_, rfl, rfl⟩
  · rw [drawCovarianceCartesian_hedron]
    rfl
  · rw [drawCovarianceAngular_hedra]
    rfl

/-- C15: the local-error scale and the segment count do not reach the covariance
meshes. For every estimate with a covariance, the draws of `drawBoundParameters`
other than the surface draw (the arrow, the Cartesian mesh, the cap and the cone)
are the same for any two values of `locErrorScale` and of `lseg`; the three
meshes have 72 rim points and one more vertex; `lseg` is carried by the optional
surface draw only; and `drawCovarianceCartesian` does not read `locErrorScale`. -/
theorem locErrorScale_and_lseg_unused (mesh : ConvexFaceMesh ℝ)
    (parameters : BoundParameters ℝ) (gctx : GeometryContext)
    (momentumScale angularErrorScale : ℝ) (drawParameterSurface : Bool)
    (pcolor scolor : ColorType) (cov : BoundSymMatrix ℝ)
    (hcov : parameters.covariance = some cov) :
    (∀ (locErrorScale locErrorScale' : ℝ) (lseg lseg' : ℕ),
      (drawBoundParameters mesh [] parameters gctx momentumScale locErrorScale
          angularErrorScale drawParameterSurface lseg pcolor scolor).filter
          (fun call => !call.isSurface) =
        (drawBoundParameters mesh [] parameters gctx momentumScale locErrorScale'
          angularErrorScale drawParameterSurface lseg' pcolor scolor).filter
          (fun call => !call.isSurface)) ∧
    (∀ (locErrorScale : ℝ) (lseg : ℕ),
      ((drawBoundParameters mesh [] parameters gctx momentumScale locErrorScale
          angularErrorScale drawParameterSurface lseg pcolor scolor).filter
          (fun call => !call.isSurface)).map (fun call => call.vertices.length) =
        [0, 72 + 1, 72 + 1, 72 + 1]) ∧
    (∀ (locErrorScale : ℝ) (lseg : ℕ),
      (drawBoundParameters mesh [] parameters gctx momentumScale locErrorScale
          angularErrorScale drawParameterSurface lseg pcolor scolor).filter
          (fun call => call.isSurface) =
        if drawParameterSurface then
          [DrawCall.surface parameters.referenceSurface gctx Transform3D.Identity lseg false
            scolor]
        else []) ∧
    (∀ (helper : IVisualization ℝ) (lposition : Vector2D ℝ) (covariance : ActsSymMatrixD2 ℝ)
        (T : Transform3D ℝ) (nsigma : List Int) (locErrorScale locErrorScale' : ℝ) (lseg : ℕ)
        (color : ColorType) (d : ℝ),
      drawCovarianceCartesian mesh helper lposition covariance T nsigma locErrorScale lseg
          color d =
        drawCovarianceCartesian mesh helper lposition covariance T nsigma locErrorScale' lseg
          color d) := by
  refine ⟨?_, ?_, ?_, ?_⟩
  · intro les les' lseg lseg'
    rw [drawBoundParameters_with_covariance mesh parameters gctx momentumScale les
        angularErrorScale drawParameterSurface lseg pcolor scolor cov hcov,
      drawBoundParameters_with_covariance mesh parameters gctx momentumScale les'
        angularErrorScale drawParameterSurface lseg' pcolor scolor cov hcov]
    cases drawParameterSurface <;> simp [DrawCall.isSurface]
  · intro les lseg
    rw [drawBoundParameters_with_covariance mesh parameters gctx momentumScale les
        angularErrorScale drawParameterSurface lseg pcolor scolor cov hcov]
    cases drawParameterSurface <;>
      simp [DrawCall.isSurface, DrawCall.vertices, ellipseHedron_length, coneTopHedron_length,
        coneHedron_length]
  · intro les lseg
    rw [drawBoundParameters_with_covariance mesh parameters gctx momentumScale les
        angularErrorScale drawParameterSurface lseg pcolor scolor cov hcov]
    cases drawParameterSurface <;> simp [DrawCall.isSurface]
  · intros
    rfl

/-- C15, at an estimate at the origin with momentum `(0, 0, 2)` and the identity
as covariance: local-error scales `1` and `5`, segment counts `72` and `8`. -/
theorem locErrorScale_and_lseg_unused_witness :
    (BoundParameters.mk (![0, 0, 0] : Vector3D ℝ) ![0, 0, 2] (some 1)
        ⟨fun _ => Transform3D.Identity⟩ (fun _ => 0)).covariance = some 1 ∧
    (drawBoundParameters (fun _ _ => ([], [])) []
        (BoundParameters.mk (![0, 0, 0] : Vector3D ℝ) ![0, 0, 2] (some 1)
          ⟨fun _ => Transform3D.Identity⟩ (fun _ => 0))
        ⟨0⟩ 1 1 1 true 72 (20, 120, 20) (235, 198, 52)).filter
        (fun call => !call.isSurface) =
      (drawBoundParameters (fun _ _ => ([], [])) []
        (BoundParameters.mk (![0, 0, 0] : Vector3D ℝ) ![0, 0, 2] (some 1)
          ⟨fun _ => Transform3D.Identity⟩ (fun _ => 0))
        ⟨0⟩ 1 5 1 true 8 (20, 120, 20) (235, 198, 52)).filter
        (fun call => !call.isSurface) :=
  ⟨rfl,
   (locErrorScale_and_lseg_unused (fun _ _ => ([], []))
      (BoundParameters.mk (![0, 0, 0] : Vector3D ℝ) ![0, 0, 2] (some 1)
        ⟨fun _ => Transform3D.Identity⟩ (fun _ => 0))
      ⟨0⟩ 1 1 true (20, 120, 20) (235, 198, 52) 1 rfl).1 1 5 72 8⟩

end Unused

/-! ## Positive-semidefinite input -/

section Semidefinite

end Semidefinite

/-! ## Rounding to binary64 -/

section Rounding

open F64

/-- A rational within half a unit of an integer rounds to that integer. -/
theorem roundHalfEven_eq (y : ℚ) (m : ℤ) (h1 : (m : ℚ) - 1 / 2 < y) (h2 : y < m + 1 / 2) :
    roundHalfEven y = m := by
  unfold roundHalfEven
  by_cases hy : (m : ℚ) ≤ y
  · have hf : ⌊y⌋ = m := Int.floor_eq_iff.mpr ⟨hy, by linarith⟩
    rw [hf, if_pos (by linarith)]
  · have hy2 : y < m := not_le.mp hy
    have hf : ⌊y⌋ = m - 1 := by
      apply Int.floor_eq_iff.mpr
      push_cast
      constructor <;> linarith
    rw [hf]
    push_cast
    rw [if_neg (by linarith), if_pos (by linarith)]
    ring

/-- Rounding to an integer never passes an integer bound from below. -/
theorem roundHalfEven_le (y : ℚ) (n : ℤ) (h : y ≤ n) : roundHalfEven y ≤ n := by
  have hfl : ⌊y⌋ ≤ n := by
    have := Int.floor_le y
    exact_mod_cast (this.trans h)
  unfold roundHalfEven
  by_cases hyn : y = n
  · subst hyn
    simp
  · have hlt : y < n := lt_of_le_of_ne h hyn
    have hfl2 : ⌊y⌋ < n := by
      have := Int.floor_le y
      exact_mod_cast (lt_of_le_of_lt this hlt)
    split_ifs <;> omega

/-- Rounding to an integer never passes an integer bound from above. -/
theorem le_roundHalfEven (y : ℚ) (n : ℤ) (h : (n : ℚ) ≤ y) : n ≤ roundHalfEven y := by
  have hfl : n ≤ ⌊y⌋ := Int.le_floor.mpr h
  unfold roundHalfEven
  split_ifs <;> omega

/-- The exponent of the last mantissa bit, read off the binade of `q`. -/
theorem ulpExp_eq (q : ℚ) (e : ℤ) (h1 : (2 : ℚ) ^ (e + 52) ≤ |q|) (h2 : |q| < 2 ^ (e + 53))
    (he : -1074 ≤ e) : ulpExp q = e := by
  have hpos : 0 < |q| := lt_of_lt_of_le (zpow_pos (by norm_num) _) h1
  have hlo : e + 52 ≤ Int.log 2 |q| :=
    (Int.zpow_le_iff_le_log (R := ℚ) (b := 2) (by norm_num) hpos).mp (by exact_mod_cast h1)
  have hhi : Int.log 2 |q| < e + 53 :=
    (Int.lt_zpow_iff_log_lt (R := ℚ) (b := 2) (by norm_num) hpos).mp (by exact_mod_cast h2)
  unfold ulpExp
  omega

/-- Rounding to binary64, given a certificate: `q` lies in the binade whose last
mantissa bit has exponent `e`, within half a unit in the last place of `m * 2^e`. -/
theorem round_eq (q : ℚ) (m e : ℤ) (h1 : (2 : ℚ) ^ (e + 52) ≤ |q|) (h2 : |q| < 2 ^ (e + 53))
    (he : -1074 ≤ e) (hc1 : (m : ℚ) * 2 ^ e - 2 ^ e / 2 < q)
    (hc2 : q < (m : ℚ) * 2 ^ e + 2 ^ e / 2) : roundNearest q = (m : ℚ) * 2 ^ e := by
  have hpos : 0 < |q| := lt_of_lt_of_le (zpow_pos (by norm_num) _) h1
  have hq : q ≠ 0 := abs_pos.mp hpos
  have hu : (0 : ℚ) < 2 ^ e := zpow_pos (by norm_num) _
  unfold roundNearest
  rw [if_neg hq, ulpExp_eq q e h1 h2 he]
  congr 1
  have hm : roundHalfEven (q / 2 ^ e) = m := by
    apply roundHalfEven_eq
    · rw [lt_div_iff₀ hu]
      linarith
    · rw [div_lt_iff₀ hu]
      linarith
  rw [hm]

/-- The binary64 result of a non-zero rational, from a rounding certificate. -/
theorem ofRat_eq (q r : ℚ) (m e : ℤ) (hr : r = (m : ℚ) * 2 ^ e)
    (h1 : (2 : ℚ) ^ (e + 52) ≤ |q|) (h2 : |q| < 2 ^ (e + 53)) (he : -1074 ≤ e)
    (hc1 : r - 2 ^ e / 2 < q) (hc2 : q < r + 2 ^ e / 2) (hfin : |r| < 2 ^ 1024) :
    ofRat q = fin r := by
  subst hr
  unfold ofRat
  rw [round_eq q m e h1 h2 he hc1 hc2, if_neg (not_le.mpr hfin)]

/-- A rational within half a unit of an integer rounds to that integer, a tie
going to the even side. -/
theorem roundHalfEven_tie (y : ℚ) (m : ℤ) (h1 : (m : ℚ) - 1 / 2 ≤ y) (h2 : y ≤ m + 1 / 2)
    (hpar : (y = (m : ℚ) - 1 / 2 ∨ y = (m : ℚ) + 1 / 2) → m % 2 = 0) :
    roundHalfEven y = m := by
  rcases lt_or_eq_of_le h1 with h1s | h1e
  · rcases lt_or_eq_of_le h2 with h2s | h2e
    · exact roundHalfEven_eq y m h1s h2s
    · have hm := hpar (Or.inr h2e)
      have hf : ⌊y⌋ = m := Int.floor_eq_iff.mpr ⟨by linarith, by linarith⟩
      unfold roundHalfEven
      rw [hf, if_neg (by linarith), if_neg (by linarith), if_pos hm]
  · have hm := hpar (Or.inl h1e.symm)
    have hf : ⌊y⌋ = m - 1 := by
      apply Int.floor_eq_iff.mpr
      push_cast
      constructor <;> linarith
    unfold roundHalfEven
    rw [hf]
    push_cast
    rw [if_neg (by linarith), if_neg (by linarith), if_neg (by omega)]
    ring

/-- Rounding to binary64 from a certificate that allows a tie: `q` lies in the
binade whose last mantissa bit has exponent `e`, within half a unit in the last
place of `r = m * 2^e`, and `m` is even when `q` is exactly half way. -/
theorem ofRat_cert (q r : ℚ) (m e : ℤ) (hr : r = (m : ℚ) * 2 ^ e)
    (h1 : (2 : ℚ) ^ (e + 52) ≤ |q|) (h2 : |q| < 2 ^ (e + 53)) (he : -1074 ≤ e)
    (he2 : e ≤ 969) (hc1 : r - 2 ^ e / 2 ≤ q) (hc2 : q ≤ r + 2 ^ e / 2)
    (hpar : (q = r - 2 ^ e / 2 ∨ q = r + 2 ^ e / 2) → m % 2 = 0) : ofRat q = fin r := by
  subst hr
  have hpos : 0 < |q| := lt_of_lt_of_le (zpow_pos (by norm_num) _) h1
  have hq : q ≠ 0 := abs_pos.mp hpos
  have hu : (0 : ℚ) < 2 ^ e := zpow_pos (by norm_num) _
  have hm : roundHalfEven (q / 2 ^ e) = m := by
    apply roundHalfEven_tie
    · rw [le_div_iff₀ hu]
      linarith
    · rw [div_le_iff₀ hu]
      linarith
    · intro hy
      apply hpar
      rcases hy with hy | hy
      · left
        rw [div_eq_iff (ne_of_gt hu)] at hy
        rw [hy]
        ring
      · right
        rw [div_eq_iff (ne_of_gt hu)] at hy
        rw [hy]
        ring
  have hround : roundNearest q = (m : ℚ) * 2 ^ e := by
    unfold roundNearest
    rw [if_neg hq, ulpExp_eq q e h1 h2 he, hm]
  have hbig : (2 : ℚ) ^ (e + 54) ≤ 2 ^ (1024 : ℤ) := zpow_le_zpow_right₀ (by norm_num) (by omega)
  have h53 : (2 : ℚ) ^ (e + 53) = 2 ^ e * 2 ^ (53 : ℤ) := zpow_add₀ (by norm_num) e 53
  have h54 : (2 : ℚ) ^ (e + 54) = 2 ^ e * 2 ^ (54 : ℤ) := zpow_add₀ (by norm_num) e 54
  have hn53 : (2 : ℚ) ^ (53 : ℤ) = 9007199254740992 := by norm_num
  have hn54 : (2 : ℚ) ^ (54 : ℤ) = 18014398509481984 := by norm_num
  rw [hn53] at h53
  rw [hn54] at h54
  have hfin : |(m : ℚ) * 2 ^ e| < 2 ^ (1024 : ℤ) := by
    have hqa := neg_abs_le q
    have hqb := le_abs_self q
    have hle : |(m : ℚ) * 2 ^ e| ≤ |q| + 2 ^ e / 2 := by
      rw [abs_le]
      constructor <;> linarith
    linarith
  unfold ofRat
  rw [hround, if_neg]
  rw [not_le]
  calc |(m : ℚ) * 2 ^ e| < 2 ^ (1024 : ℤ) := hfin
    _ = 2 ^ 1024 := by norm_num

/-- The binary64 result of a positive rational, from a rounding certificate. -/
theorem ofRat_pos (q r : ℚ) (m e : ℤ) (hr : r = (m : ℚ) * 2 ^ e)
    (h1 : (2 : ℚ) ^ (e + 52) ≤ q) (h2 : q < 2 ^ (e + 53)) (he : -1074 ≤ e) (he2 : e ≤ 969)
    (hc1 : r - 2 ^ e / 2 ≤ q) (hc2 : q ≤ r + 2 ^ e / 2)
    (hpar : (q = r - 2 ^ e / 2 ∨ q = r + 2 ^ e / 2) → m % 2 = 0) : ofRat q = fin r := by
  have hq : 0 < q := lt_of_lt_of_le (zpow_pos (by norm_num) _) h1
  have habs : |q| = q := abs_of_pos hq
  exact ofRat_cert q r m e hr (by rw [habs]; exact h1) (by rw [habs]; exact h2) he he2 hc1 hc2
    hpar

/-- The binary64 result of a negative rational, from a rounding certificate. -/
theorem ofRat_neg (q r : ℚ) (m e : ℤ) (hr : r = (m : ℚ) * 2 ^ e)
    (h1 : (2 : ℚ) ^ (e + 52) ≤ -q) (h2 : -q < 2 ^ (e + 53)) (he : -1074 ≤ e) (he2 : e ≤ 969)
    (hc1 : r - 2 ^ e / 2 ≤ q) (hc2 : q ≤ r + 2 ^ e / 2)
    (hpar : (q = r - 2 ^ e / 2 ∨ q = r + 2 ^ e / 2) → m % 2 = 0) : ofRat q = fin r := by
  have hq : q < 0 := by
    have := lt_of_lt_of_le (zpow_pos (by norm_num : (0 : ℚ) < 2) (e + 52)) h1
    linarith
  have habs : |q| = -q := abs_of_neg hq
  exact ofRat_cert q r m e hr (by rw [habs]; exact h1) (by rw [habs]; exact h2) he he2 hc1 hc2
    hpar

theorem ofRat_zero : ofRat 0 = fin 0 := by
  simp [ofRat, roundNearest]

/-- The correctly rounded square root, given a certificate: `q` lies in the
binade of squares whose roots have last mantissa bit `2^e`, and strictly between
the squares of `(m - 1/2) 2^e` and `(m + 1/2) 2^e`. -/
theorem roundSqrt_eq (q : ℚ) (m e : ℤ) (hb1 : (4 : ℚ) ^ (e + 52) ≤ q) (hb2 : q < 4 ^ (e + 53))
    (hm : 0 < m) (h1 : ((m : ℚ) - 1 / 2) ^ 2 * 4 ^ e < q)
    (h2 : q < ((m : ℚ) + 1 / 2) ^ 2 * 4 ^ e) : roundSqrt q = (m : ℚ) * 2 ^ e := by
  have hq : 0 < q := lt_of_lt_of_le (zpow_pos (by norm_num) _) hb1
  have h4 : ∀ k : ℤ, (4 : ℚ) ^ k = 2 ^ (2 * k) := by
    intro k
    rw [zpow_mul]
    norm_num
  have hlo : 2 * (e + 52) ≤ Int.log 2 q := by
    apply (Int.zpow_le_iff_le_log (R := ℚ) (b := 2) (by norm_num) hq).mp
    rw [h4] at hb1
    exact_mod_cast hb1
  have hhi : Int.log 2 q < 2 * (e + 53) := by
    apply (Int.lt_zpow_iff_log_lt (R := ℚ) (b := 2) (by norm_num) hq).mp
    rw [h4] at hb2
    exact_mod_cast hb2
  have he : Int.log 2 q / 2 - 52 = e := by omega
  have hu : (0 : ℚ) < 4 ^ e := zpow_pos (by norm_num) _
  have hx1 : ((m : ℚ) - 1 / 2) ^ 2 < q / 4 ^ e := by
    rw [lt_div_iff₀ hu]
    exact h1
  have hx2 : q / 4 ^ e < ((m : ℚ) + 1 / 2) ^ 2 := by
    rw [div_lt_iff₀ hu]
    exact h2
  have hx0 : (0 : ℚ) ≤ q / 4 ^ e := le_of_lt (div_pos hq hu)
  unfold roundSqrt
  rw [if_neg (not_le.mpr hq)]
  simp only [he]
  generalize q / 4 ^ e = x at hx0 hx1 hx2
  have hfl1 : ((⌊x⌋₊ : ℕ) : ℚ) ≤ x := Nat.floor_le hx0
  have hfl2 : x < ((⌊x⌋₊ : ℕ) : ℚ) + 1 := Nat.lt_floor_add_one x
  have hs1 : (Nat.sqrt ⌊x⌋₊) ^ 2 ≤ ⌊x⌋₊ := Nat.sqrt_le' _
  have hs2 : ⌊x⌋₊ < (Nat.sqrt ⌊x⌋₊).succ ^ 2 := Nat.lt_succ_sqrt' _
  generalize ⌊x⌋₊ = n at hfl1 hfl2 hs1 hs2
  generalize Nat.sqrt n = s at hs1 hs2
  have hs1q : ((s : ℚ)) ^ 2 ≤ x := by
    have : ((s ^ 2 : ℕ) : ℚ) ≤ (n : ℚ) := by exact_mod_cast hs1
    push_cast at this
    linarith
  have hs2q : x < ((s : ℚ) + 1) ^ 2 := by
    have : ((n + 1 : ℕ) : ℚ) ≤ ((s.succ ^ 2 : ℕ) : ℚ) := by exact_mod_cast hs2
    push_cast at this
    linarith
  have hmq : (1 : ℚ) ≤ m := by exact_mod_cast hm
  have hs0 : (0 : ℚ) ≤ s := Nat.cast_nonneg s
  have hle : (s : ℤ) ≤ m := by
    by_contra hcon
    have hge : (m : ℚ) + 1 ≤ (s : ℚ) := by
      have : m + 1 ≤ (s : ℤ) := by omega
      exact_mod_cast this
    have hsq1 : ((m : ℚ) + 1 / 2) ^ 2 ≤ (s : ℚ) ^ 2 :=
      pow_le_pow_left₀ (by linarith) (by linarith) 2
    linarith
  have hge : m ≤ (s : ℤ) + 1 := by
    by_contra hcon
    have hlt : (s : ℚ) + 1 ≤ (m : ℚ) - 1 := by
      have : (s : ℤ) + 1 ≤ m - 1 := by omega
      exact_mod_cast this
    have hsq2 : ((s : ℚ) + 1) ^ 2 ≤ ((m : ℚ) - 1 / 2) ^ 2 :=
      pow_le_pow_left₀ (by linarith) (by linarith) 2
    linarith
  congr 1
  have hcases : (s : ℤ) = m ∨ (s : ℤ) = m - 1 := by omega
  rcases hcases with hsm | hsm
  · have hsq : ((s : ℤ) : ℚ) = m := by exact_mod_cast hsm
    simp only [Int.cast_natCast] at hsq ⊢
    rw [hsq, if_pos hx2]
    exact_mod_cast hsm
  · have hsq : ((s : ℤ) : ℚ) = (m : ℚ) - 1 := by
      rw [hsm]
      push_cast
      ring
    simp only [Int.cast_natCast] at hsq ⊢
    have hhalf : (s : ℚ) + 1 / 2 = (m : ℚ) - 1 / 2 := by rw [hsq]; ring
    rw [hhalf, if_neg (not_lt.mpr (le_of_lt hx1)), if_pos hx1]
    have : ((s : ℤ) + 1 : ℤ) = m := by omega
    exact_mod_cast this

/-- Rounding keeps a magnitude below a power of two it does not exceed. -/
theorem roundNearest_abs_le (q : ℚ) (k : ℤ) (hk : -1074 ≤ k) (h : |q| ≤ 2 ^ k) :
    |roundNearest q| ≤ 2 ^ k := by
  unfold roundNearest
  by_cases hq : q = 0
  · rw [if_pos hq]
    simpa using le_of_lt (zpow_pos (by norm_num : (0 : ℚ) < 2) k)
  rw [if_neg hq]
  have hpos : 0 < |q| := abs_pos.mpr hq
  have hlog : Int.log 2 |q| < k + 1 := by
    apply (Int.lt_zpow_iff_log_lt (R := ℚ) (b := 2) (by norm_num) hpos).mp
    have : (2 : ℚ) ^ k < 2 ^ (k + 1) := zpow_lt_zpow_right₀ (by norm_num) (by omega)
    exact_mod_cast lt_of_le_of_lt h this
  have hek : ulpExp q ≤ k := by
    unfold ulpExp
    omega
  generalize ulpExp q = e at hek
  have hu : (0 : ℚ) < 2 ^ e := zpow_pos (by norm_num) _
  obtain ⟨n, hn⟩ : ∃ n : ℕ, (n : ℤ) = k - e := ⟨(k - e).toNat, by omega⟩
  have hN : (((2 : ℤ) ^ n : ℤ) : ℚ) * 2 ^ e = 2 ^ k := by
    push_cast
    rw [← zpow_natCast, hn, ← zpow_add₀ (by norm_num : (2 : ℚ) ≠ 0)]
    congr 1
    omega
  have hy : |q / 2 ^ e| ≤ (((2 : ℤ) ^ n : ℤ) : ℚ) := by
    rw [abs_div, abs_of_pos hu, div_le_iff₀ hu, hN]
    exact h
  have hy' := abs_le.mp hy
  have hup : roundHalfEven (q / 2 ^ e) ≤ (2 : ℤ) ^ n := roundHalfEven_le _ _ hy'.2
  have hdn : -((2 : ℤ) ^ n) ≤ roundHalfEven (q / 2 ^ e) := by
    apply le_roundHalfEven
    push_cast
    push_cast at hy'
    exact hy'.1
  rw [abs_mul, abs_of_pos hu, ← hN]
  apply mul_le_mul_of_nonneg_right _ (le_of_lt hu)
  rw [abs_le]
  constructor
  · exact_mod_cast hdn
  · exact_mod_cast hup

/-- A rational of magnitude at most `2^k`, inside the exponent range, has a
finite binary64 result of magnitude at most `2^k`. -/
theorem ofRat_bounded (q : ℚ) (k : ℤ) (hk1 : -1074 ≤ k) (hk2 : k < 1024) (h : |q| ≤ 2 ^ k) :
    ∃ r : ℚ, ofRat q = fin r ∧ |r| ≤ 2 ^ k := by
  have hb := roundNearest_abs_le q k hk1 h
  refine ⟨roundNearest q, ?_, hb⟩
  unfold ofRat
  rw [if_neg]
  rw [not_le]
  have : (2 : ℚ) ^ k < 2 ^ (1024 : ℤ) := zpow_lt_zpow_right₀ (by norm_num) hk2
  calc |roundNearest q| ≤ 2 ^ k := hb
    _ < 2 ^ (1024 : ℤ) := this
    _ = 2 ^ 1024 := by norm_num

/-- A perturbation of `1` below a quarter of a unit in the last place is absorbed. -/
theorem ofRat_one_add (d : ℚ) (h : |d| < 2 ^ (-54 : ℤ)) : ofRat (1 + d) = fin 1 := by
  have hd := abs_lt.mp h
  have h54 : (2 : ℚ) ^ (-54 : ℤ) = 1 / 18014398509481984 := by norm_num
  rw [h54] at hd
  by_cases hneg : d < 0
  · have habs : |1 + d| = 1 + d := abs_of_pos (by linarith)
    apply ofRat_eq (1 + d) 1 (2 ^ 53) (-53)
    · norm_num
    · rw [habs]; norm_num; linarith
    · rw [habs]; norm_num; linarith
    · norm_num
    · norm_num; linarith
    · norm_num; linarith
    · norm_num
  · have hd0 : 0 ≤ d := not_lt.mp hneg
    have habs : |1 + d| = 1 + d := abs_of_pos (by linarith)
    apply ofRat_eq (1 + d) 1 (2 ^ 52) (-52)
    · norm_num
    · rw [habs]; norm_num; linarith
    · rw [habs]; norm_num; linarith
    · norm_num
    · norm_num; linarith
    · norm_num; linarith
    · norm_num

theorem ofRat_one : ofRat 1 = fin 1 := by
  apply ofRat_eq 1 1 (2 ^ 52) (-52) <;> norm_num

theorem fin_add_fin (a b : ℚ) : (fin a + fin b : F64) = ofRat (a + b) := rfl

theorem fin_sub_fin (a b : ℚ) : (fin a - fin b : F64) = ofRat (a + -b) := rfl

theorem fin_mul_fin (a b : ℚ) : (fin a * fin b : F64) = ofRat (a * b) := rfl

theorem fin_div_fin (a b : ℚ) (hb : b ≠ 0) : (fin a / fin b : F64) = ofRat (a / b) := by
  show F64.div (fin a) (fin b) = ofRat (a / b)
  simp [F64.div, hb]

theorem neg_fin (a : ℚ) : (-fin a : F64) = fin (-a) := rfl

theorem zero_eq_fin : (0 : F64) = fin 0 := rfl

theorem one_eq_fin : (1 : F64) = fin 1 := rfl

theorem nan_sub (x : F64) : (nan - x : F64) = nan := by
  cases x <;> rfl

theorem two_eq_fin : (2 : F64) = fin 2 := by
  show ofRat ((2 : ℕ) : ℚ) = fin 2
  apply ofRat_pos _ 2 (2 ^ 52) (-51) <;> norm_num

theorem machine_sqrt [PlatformLibm] (x : F64) : (Libm.sqrt x : F64) = F64.sqrt x := rfl

/-- There are platforms: constant cosine `1` and sine `0` meet the range
requirements. -/
theorem platformLibm_nonempty : Nonempty PlatformLibm :=
  ⟨{ cos := fun _ => fin 1
     sin := fun _ => fin 0
     tan := fun _ => fin 0
     atan2 := fun _ _ => fin 0
     cos_range := fun _ => ⟨1, rfl, by norm_num⟩
     sin_range := fun _ => ⟨0, rfl, by norm_num⟩ }⟩

theorem sqrt_fin (q : ℚ) (hq : 0 ≤ q) : F64.sqrt (fin q) = fin (roundSqrt q) := by
  simp [F64.sqrt, not_lt.mpr hq]

theorem fin_lt_fin (a b : ℚ) : (fin a < fin b) ↔ a < b := by
  show blt (fin a) (fin b) = true ↔ a < b
  simp [blt]

/-- The product of a value of magnitude at most `2^k` with one of magnitude at
most `1` is finite, of magnitude at most `2^k`. -/
theorem tiny_mul (l c : ℚ) (k : ℤ) (hk1 : -1074 ≤ k) (hk2 : k < 1024) (hl : |l| ≤ 2 ^ k)
    (hc : |c| ≤ 1) : ∃ r : ℚ, (fin l * fin c : F64) = fin r ∧ |r| ≤ 2 ^ k := by
  rw [fin_mul_fin]
  apply ofRat_bounded _ k hk1 hk2
  rw [abs_mul]
  calc |l| * |c| ≤ 2 ^ k * 1 := mul_le_mul hl hc (abs_nonneg c) (le_of_lt (zpow_pos (by norm_num) k))
    _ = 2 ^ k := mul_one _

/-- Added to `1`, a difference of two products of magnitude at most `2^-66` is
absorbed by the rounding. -/
theorem absorbed_sub (l1 l2 c s cp sp : ℚ) (h1 : |l1| ≤ 2 ^ (-66 : ℤ))
    (h2 : |l2| ≤ 2 ^ (-66 : ℤ)) (hc : |c| ≤ 1) (hs : |s| ≤ 1) (hcp : |cp| ≤ 1)
    (hsp : |sp| ≤ 1) :
    (fin 1 + (fin l1 * fin c * fin cp - fin l2 * fin s * fin sp) : F64) = fin 1 := by
  obtain ⟨r1, e1, b1⟩ := tiny_mul l1 c (-66) (by norm_num) (by norm_num) h1 hc
  obtain ⟨r2, e2, b2⟩ := tiny_mul r1 cp (-66) (by norm_num) (by norm_num) b1 hcp
  obtain ⟨r3, e3, b3⟩ := tiny_mul l2 s (-66) (by norm_num) (by norm_num) h2 hs
  obtain ⟨r4, e4, b4⟩ := tiny_mul r3 sp (-66) (by norm_num) (by norm_num) b3 hsp
  rw [e1, e2, e3, e4, fin_sub_fin]
  have hb : |r2 + -r4| ≤ 2 ^ (-65 : ℤ) := by
    have h65 : (2 : ℚ) ^ (-65 : ℤ) = 2 ^ (-66 : ℤ) + 2 ^ (-66 : ℤ) := by norm_num
    rw [h65]
    calc |r2 + -r4| ≤ |r2| + |-r4| := abs_add _ _
      _ = |r2| + |r4| := by rw [abs_neg]
      _ ≤ _ := add_le_add b2 b4
  obtain ⟨r5, e5, b5⟩ := ofRat_bounded _ (-65) (by norm_num) (by norm_num) hb
  rw [e5, fin_add_fin]
  apply ofRat_one_add
  have : (2 : ℚ) ^ (-65 : ℤ) < 2 ^ (-54 : ℤ) := by norm_num
  exact lt_of_le_of_lt b5 this

/-- Added to `1`, a sum of two products of magnitude at most `2^-66` is absorbed
by the rounding. -/
theorem absorbed_add (l1 l2 c s cp sp : ℚ) (h1 : |l1| ≤ 2 ^ (-66 : ℤ))
    (h2 : |l2| ≤ 2 ^ (-66 : ℤ)) (hc : |c| ≤ 1) (hs : |s| ≤ 1) (hcp : |cp| ≤ 1)
    (hsp : |sp| ≤ 1) :
    (fin 1 + (fin l1 * fin s * fin cp + fin l2 * fin c * fin sp) : F64) = fin 1 := by
  obtain ⟨r1, e1, b1⟩ := tiny_mul l1 s (-66) (by norm_num) (by norm_num) h1 hs
  obtain ⟨r2, e2, b2⟩ := tiny_mul r1 cp (-66) (by norm_num) (by norm_num) b1 hcp
  obtain ⟨r3, e3, b3⟩ := tiny_mul l2 c (-66) (by norm_num) (by norm_num) h2 hc
  obtain ⟨r4, e4, b4⟩ := tiny_mul r3 sp (-66) (by norm_num) (by norm_num) b3 hsp
  rw [e1, e2, e3, e4, fin_add_fin]
  have hb : |r2 + r4| ≤ 2 ^ (-65 : ℤ) := by
    have h65 : (2 : ℚ) ^ (-65 : ℤ) = 2 ^ (-66 : ℤ) + 2 ^ (-66 : ℤ) := by norm_num
    rw [h65]
    exact (abs_add _ _).trans (add_le_add b2 b4)
  obtain ⟨r5, e5, b5⟩ := ofRat_bounded _ (-65) (by norm_num) (by norm_num) hb
  rw [e5, fin_add_fin]
  apply ofRat_one_add
  have : (2 : ℚ) ^ (-65 : ℤ) < 2 ^ (-54 : ℤ) := by norm_num
  exact lt_of_le_of_lt b5 this

/-- The identity transform, in binary64, leaves the point `(1, 1, 0)` where it is. -/
theorem identity_apply_one_one_zero :
    (Transform3D.Identity : Transform3D F64).apply ![fin 1, fin 1, fin 0] =
      ![fin 1, fin 1, fin 0] := by
  funext i
  fin_cases i <;>
    simp [Transform3D.apply, Transform3D.Identity, zero_eq_fin, one_eq_fin, fin_mul_fin,
      fin_add_fin, ofRat_zero, ofRat_one]

end Rounding

/-! ## Binary64 evaluations of decomposeCovariance -/

section MachineDecompose

open F64

end MachineDecompose

/-! ## Binary64: NaN rim points -/

section MachineNaN

open F64

end MachineNaN

/-! ## Binary64: half-axes absorbed by the anchor -/

section MachineAbsorption

open F64

theorem lit_1e_40 : (1e-40 : F64) = fin (1225996432692711 / 12259964326927110866866776217202473468949912977468817408) := by
  show ofRat (OfScientific.ofScientific 1 true 40 : ℚ) = _
  apply ofRat_pos _ _ 4903985730770844 (-185) <;> norm_num

theorem sqrt_1e_40 : F64.sqrt (fin (1225996432692711 / 12259964326927110866866776217202473468949912977468817408)) = fin (6646139978924579 / 664613997892457936451903530140172288) := by
  rw [sqrt_fin _ (by norm_num)]
  rw [roundSqrt_eq _ 6646139978924579 (-119) (by norm_num) (by norm_num) (by norm_num) (by norm_num)
    (by norm_num)]
  norm_num

theorem machine_M_PI [PlatformLibm] : (Libm.M_PI : F64) = fin (884279719003555 / 281474976710656) := by
  show F64.M_PI = _
  norm_num [F64.M_PI]

theorem natCast_zero_eq_fin : ((0 : ℕ) : F64) = fin 0 := by
  show ofRat ((0 : ℕ) : ℚ) = fin 0
  norm_num [ofRat_zero]

theorem natCast_one_eq_fin : ((1 : ℕ) : F64) = fin 1 := by
  show ofRat ((1 : ℕ) : ℚ) = fin 1
  norm_num [ofRat_one]

theorem natCast_two_eq_fin : ((2 : ℕ) : F64) = fin 2 := by
  show ofRat ((2 : ℕ) : ℚ) = fin 2
  apply ofRat_pos _ _ (2 ^ 52) (-51) <;> norm_num

theorem natCast_three_eq_fin : ((3 : ℕ) : F64) = fin 3 := by
  show ofRat ((3 : ℕ) : ℚ) = fin 3
  apply ofRat_pos _ _ (3 * 2 ^ 51) (-51) <;> norm_num

/-- The three azimuths of a loop of three segments, in binary64, are finite. -/
theorem azimuths_three [PlatformLibm] :
    (-Libm.M_PI + ((0 : ℕ) : F64) * (2 * Libm.M_PI / ((3 : ℕ) : F64)) : F64) = fin (-884279719003555 / 281474976710656) ∧
    (-Libm.M_PI + ((1 : ℕ) : F64) * (2 * Libm.M_PI / ((3 : ℕ) : F64)) : F64) = fin (-2358079250676147 / 2251799813685248) ∧
    (-Libm.M_PI + ((2 : ℕ) : F64) * (2 * Libm.M_PI / ((3 : ℕ) : F64)) : F64) = fin (1179039625338073 / 1125899906842624) := by
  simp only [machine_M_PI, natCast_zero_eq_fin, natCast_one_eq_fin, natCast_two_eq_fin,
    natCast_three_eq_fin, two_eq_fin, neg_fin]
  have hneg : (-(884279719003555 / 281474976710656) : ℚ) =
      -884279719003555 / 281474976710656 := by norm_num
  rw [hneg]
  have e1 : (F64.fin 2 * F64.fin (884279719003555 / 281474976710656) : F64) = F64.fin (884279719003555 / 140737488355328) := by
    rw [fin_mul_fin]
    apply ofRat_pos _ _ 7074237752028440 (-50) <;> norm_num
  have e2 : (F64.fin (884279719003555 / 140737488355328) / F64.fin 3 : F64) = F64.fin (4716158501352293 / 2251799813685248) := by
    rw [fin_div_fin _ _ (by norm_num)]
    apply ofRat_pos _ _ 4716158501352293 (-51) <;> norm_num
  have e3 : (F64.fin 0 * F64.fin (4716158501352293 / 2251799813685248) : F64) = F64.fin 0 := by
    rw [fin_mul_fin]
    norm_num [ofRat_zero]
  have e4 : (F64.fin 1 * F64.fin (4716158501352293 / 2251799813685248) : F64) = F64.fin (4716158501352293 / 2251799813685248) := by
    rw [fin_mul_fin]
    apply ofRat_pos _ _ 4716158501352293 (-51) <;> norm_num
  have e5 : (F64.fin 2 * F64.fin (4716158501352293 / 2251799813685248) : F64) = F64.fin (4716158501352293 / 1125899906842624) := by
    rw [fin_mul_fin]
    apply ofRat_pos _ _ 4716158501352293 (-50) <;> norm_num
  have e6 : (F64.fin (-884279719003555 / 281474976710656) + F64.fin 0 : F64) = F64.fin (-884279719003555 / 281474976710656) := by
    rw [fin_add_fin]
    apply ofRat_neg _ _ (-7074237752028440) (-51) <;> norm_num
  have e7 : (F64.fin (-884279719003555 / 281474976710656) + F64.fin (4716158501352293 / 2251799813685248) : F64) = F64.fin (-2358079250676147 / 2251799813685248) := by
    rw [fin_add_fin]
    apply ofRat_neg _ _ (-4716158501352294) (-52) <;> norm_num
  have e8 : (F64.fin (-884279719003555 / 281474976710656) + F64.fin (4716158501352293 / 1125899906842624) : F64) = F64.fin (1179039625338073 / 1125899906842624) := by
    rw [fin_add_fin]
    apply ofRat_pos _ _ 4716158501352292 (-52) <;> norm_num
  rw [e1, e2, e3, e4, e5, e6, e7, e8]
  exact ⟨rfl, rfl, rfl⟩

/-- A loop point around the anchor `(1, 1)` with half-axes of magnitude at most
`2^-66` is, in binary64, the anchor itself. -/
theorem loopPoint_absorbed [PlatformLibm] (l θ q : ℚ) (hl : |l| ≤ 2 ^ (-66 : ℤ)) (step : F64)
    (it : ℕ) (hphi : (-Libm.M_PI + (it : F64) * step : F64) = fin q) :
    loopPoint (fin l) (fin l) (Libm.cos (fin θ)) (Libm.sin (fin θ)) step (fin 0)
        ![fin 1, fin 1] (Transform3D.Identity : Transform3D F64) it =
      ![fin 1, fin 1, fin 0] := by
  obtain ⟨c, hc, hcb⟩ := PlatformLibm.cos_range θ
  obtain ⟨s, hs, hsb⟩ := PlatformLibm.sin_range θ
  obtain ⟨cp, hcp, hcpb⟩ := PlatformLibm.cos_range q
  obtain ⟨sp, hsp, hspb⟩ := PlatformLibm.sin_range q
  have hc' : (Libm.cos (fin θ) : F64) = fin c := hc
  have hs' : (Libm.sin (fin θ) : F64) = fin s := hs
  have hcp' : (Libm.cos (fin q) : F64) = fin cp := hcp
  have hsp' : (Libm.sin (fin q) : F64) = fin sp := hsp
  unfold loopPoint
  rw [hphi, hc', hs', hcp', hsp']
  simp only [Matrix.cons_val_zero, Matrix.cons_val_one, Matrix.head_cons]
  rw [absorbed_sub l l c s cp sp hl hl hcb hsb hcpb hspb,
    absorbed_add l l c s cp sp hl hl hcb hsb hcpb hspb]
  exact identity_apply_one_one_zero

/-- In binary64, the loop of three segments with both eigenvalues `1e-40` around
the anchor `(1, 1)` consists of three copies of the anchor. -/
theorem createEllipse_absorbed [PlatformLibm] :
    createEllipse (1e-40 : F64) 1e-40 0 3 0 ![1, 1] Transform3D.Identity =
      [![fin 1, fin 1, fin 0], ![fin 1, fin 1, fin 0], ![fin 1, fin 1, fin 0]] := by
  have hl : |((6646139978924579 / 664613997892457936451903530140172288) : ℚ)| ≤ 2 ^ (-66 : ℤ) := by
    rw [abs_le]
    constructor <;> norm_num
  obtain ⟨h0, h1, h2⟩ := azimuths_three
  rw [createEllipse_eq_map, lit_1e_40, machine_sqrt, sqrt_1e_40, zero_eq_fin, one_eq_fin]
  simp only [List.range_succ, List.range_zero, List.nil_append, List.map_append, List.map_cons,
    List.map_nil, List.cons_append]
  rw [loopPoint_absorbed _ 0 _ hl _ 0 h0, loopPoint_absorbed _ 0 _ hl _ 1 h1,
    loopPoint_absorbed _ 0 _ hl _ 2 h2]

/-- C11, as stated, fails on the machine: with three segments, both eigenvalues
`1e-40 > 0`, anchor `(1, 1)` and the identity transform, in binary64 and on
every platform the last point of the loop equals the first: the half-axes,
about `1e-20`, are absorbed when added to the anchor. -/
theorem loop_closed_in_binary64 :
    (0 : F64) < 1e-40 ∧
    ¬ ∃ _ : PlatformLibm, ∃ first last : Vector3D F64,
      (createEllipse (1e-40 : F64) 1e-40 0 3 0 ![1, 1] Transform3D.Identity).head? =
        some first ∧
      (createEllipse (1e-40 : F64) 1e-40 0 3 0 ![1, 1] Transform3D.Identity).getLast? =
        some last ∧
      last ≠ first := by
  constructor
  · rw [lit_1e_40, zero_eq_fin, fin_lt_fin]
    norm_num
  · rintro ⟨_, first, last, hf, hlast, hne⟩
    rw [createEllipse_absorbed] at hf hlast
    simp only [List.head?_cons, Option.some.injEq] at hf
    have hl2 : last = ![fin 1, fin 1, fin 0] := by
      simpa using hlast.symm
    exact hne (hl2.trans hf)

/-- C6, as stated, fails on the machine: for the isotropic covariance with
`v = 1e-40`, anchor `(1, 1)` and the identity transform, in binary64 and on
every platform the points of the loop are the anchor itself, at distance `0`
and not `sqrt v` from it (stated on squares: the squared distance is not `v`). -/
theorem circle_collapses_in_binary64 :
    (1e-40 : F64) = fin (1225996432692711 / 12259964326927110866866776217202473468949912977468817408) ∧
    ¬ ∃ _ : PlatformLibm,
      ∀ p ∈ createEllipse (1e-40 : F64) 1e-40 0 3 0 ![1, 1] Transform3D.Identity,
        ∃ x y z : ℚ, p = ![fin x, fin y, fin z] ∧
          (x - 1) ^ 2 + (y - 1) ^ 2 + (z - 0) ^ 2 = (1225996432692711 / 12259964326927110866866776217202473468949912977468817408) := by
  refine ⟨lit_1e_40, ?_⟩
  rintro ⟨_, h⟩
  rw [createEllipse_absorbed] at h
  obtain ⟨x, y, z, hp, hd⟩ := h ![fin 1, fin 1, fin 0] (by simp)
  have hx := F64.fin.inj (congrFun hp 0)
  have hy := F64.fin.inj (congrFun hp 1)
  have hz := F64.fin.inj (congrFun hp 2)
  simp only [Matrix.cons_val_zero, Matrix.cons_val_one, Matrix.head_cons, Matrix.cons_val_two,
    Matrix.tail_cons] at hx hy hz
  rw [← hx, ← hy, ← hz] at hd
  norm_num at hd

end MachineAbsorption

/-! ## Binary64: the cone and the arrow -/

section MachineCone

open F64

theorem lit_0_5 : (0.5 : F64) = fin (1 / 2) := by
  show ofRat (OfScientific.ofScientific 5 true 1 : ℚ) = _
  apply ofRat_pos _ _ (2 ^ 52) (-53) <;> norm_num

theorem lit_0_2 : (0.2 : F64) = fin (3602879701896397 / 18014398509481984) := by
  show ofRat (OfScientific.ofScientific 2 true 1 : ℚ) = _
  apply ofRat_pos _ _ 7205759403792794 (-55) <;> norm_num

theorem lit_0_9 : (0.9 : F64) = fin (8106479329266893 / 9007199254740992) := by
  show ofRat (OfScientific.ofScientific 9 true 1 : ℚ) = _
  apply ofRat_pos _ _ 8106479329266893 (-53) <;> norm_num

theorem sqrt_one : F64.sqrt (fin 1) = fin 1 := by
  rw [sqrt_fin _ (by norm_num)]
  rw [roundSqrt_eq _ (2 ^ 52) (-52) (by norm_num) (by norm_num) (by norm_num) (by norm_num)
    (by norm_num)]
  norm_num

/-- The squared norm of the momentum `(0, 0, 1)` in binary64. -/
theorem squaredNorm_unit_z : squaredNorm (![0, 0, 1] : Vector3D F64) = fin 1 := by
  simp only [squaredNorm, Matrix.cons_val_zero, Matrix.cons_val_one, Matrix.head_cons,
    Matrix.cons_val_two, Matrix.tail_cons, zero_eq_fin, one_eq_fin]
  have e1 : (F64.fin 0 * F64.fin 0 : F64) = F64.fin 0 := by
    rw [fin_mul_fin]
    norm_num [ofRat_zero]
  have e2 : (F64.fin 0 + F64.fin 0 : F64) = F64.fin 0 := by
    rw [fin_add_fin]
    norm_num [ofRat_zero]
  have e3 : (F64.fin 1 * F64.fin 1 : F64) = F64.fin 1 := by
    rw [fin_mul_fin]
    apply ofRat_pos _ _ 4503599627370496 (-52) <;> norm_num
  have e4 : (F64.fin 0 + F64.fin 1 : F64) = F64.fin 1 := by
    rw [fin_add_fin]
    apply ofRat_pos _ _ 4503599627370496 (-52) <;> norm_num
  rw [e1, e2, e3, e4]

theorem norm_unit_z [PlatformLibm] : norm (![0, 0, 1] : Vector3D F64) = fin 1 := by
  rw [norm, squaredNorm_unit_z, machine_sqrt, sqrt_one]

theorem normalized_unit_z_two [PlatformLibm] :
    normalized (![0, 0, 1] : Vector3D F64) 2 = fin 1 := by
  have hpos : (fin 1 : F64) > 0 := by
    show (0 : F64) < fin 1
    rw [zero_eq_fin, fin_lt_fin]
    norm_num
  unfold normalized
  simp only [squaredNorm_unit_z]
  rw [if_pos hpos, machine_sqrt, sqrt_one]
  simp only [Matrix.cons_val_two, Matrix.tail_cons, Matrix.head_cons, one_eq_fin]
  rw [fin_div_fin _ _ (by norm_num)]
  norm_num [ofRat_one]

/-- C13, as stated, fails on the machine: for the estimate at `(0, 0, 0.5)` with
momentum `(0, 0, 1)` and `momentumScale = 0.2`, in binary64 the centre of the
cap that `drawBoundParameters` draws is not `position + 0.9 * (tip - position)`,
`tip` being the tip of the arrow it draws: the third coordinates are `0.68` and
`0.6799999999999999`. -/
theorem cone_scale_fails_in_binary64 :
    ¬ ∃ _ : PlatformLibm, ∃ (tip : Vector3D F64) (cart cap cone : Polyhedron F64),
      drawBoundParameters (fun _ _ => ([], [])) []
          (BoundParameters.mk (![0, 0, 0.5] : Vector3D F64) ![0, 0, 1] (some 1)
            ⟨fun _ => Transform3D.Identity⟩ (fun _ => 0))
          ⟨0⟩ 0.2 1 1 false 72 (20, 120, 20) (235, 198, 52) =
        [DrawCall.arrow ![0, 0, 0.5] tip 0.025 0.05 2 72 (20, 120, 20),
         DrawCall.polyhedron cart false (20, 120, 20),
         DrawCall.polyhedron cap false (20, 120, 20),
         DrawCall.polyhedron cone true (20, 120, 20)] ∧
      cap.vertices.getLast? =
        some ((![0, 0, 0.5] : Vector3D F64) + (0.9 : F64) • (tip - ![0, 0, 0.5])) := by
  rintro ⟨_, tip, cart, cap, cone, hdraw, hcap⟩
  rw [drawBoundParameters_with_covariance (fun _ _ => ([], [])) _ ⟨0⟩ 0.2 1 1 false 72
    (20, 120, 20) (235, 198, 52) 1 rfl] at hdraw
  simp only [Bool.false_eq_true, if_false, List.nil_append, List.cons.injEq,
    DrawCall.arrow.injEq, DrawCall.polyhedron.injEq, and_true, true_and] at hdraw
  obtain ⟨htip, _, hcapEq, _⟩ := hdraw
  rw [← hcapEq] at hcap
  simp only [coneTopHedron, List.getLast?_concat, Option.some.injEq] at hcap
  have h2 := congrFun hcap 2
  rw [← htip] at h2
  simp only [Pi.add_apply, Pi.smul_apply, Pi.sub_apply, smul_eq_mul, norm_unit_z,
    normalized_unit_z_two, Matrix.cons_val_two, Matrix.tail_cons, Matrix.head_cons,
    lit_0_5, lit_0_2, lit_0_9] at h2
  have e1 : (F64.fin 1 * F64.fin (3602879701896397 / 18014398509481984) : F64) = F64.fin (3602879701896397 / 18014398509481984) := by
    rw [fin_mul_fin]
    apply ofRat_pos _ _ 7205759403792794 (-55) <;> norm_num
  have e2 : (F64.fin (3602879701896397 / 18014398509481984) * F64.fin 1 : F64) = F64.fin (3602879701896397 / 18014398509481984) := by
    rw [fin_mul_fin]
    apply ofRat_pos _ _ 7205759403792794 (-55) <;> norm_num
  have e3 : (F64.fin (1 / 2) + F64.fin (3602879701896397 / 18014398509481984) : F64) = F64.fin (3152519739159347 / 4503599627370496) := by
    rw [fin_add_fin]
    apply ofRat_pos _ _ 6305039478318694 (-53) <;> norm_num
  have e4 : (F64.fin (8106479329266893 / 9007199254740992) * F64.fin 1 : F64) = F64.fin (8106479329266893 / 9007199254740992) := by
    rw [fin_mul_fin]
    apply ofRat_pos _ _ 8106479329266893 (-53) <;> norm_num
  have e5 : (F64.fin (8106479329266893 / 9007199254740992) * F64.fin (3602879701896397 / 18014398509481984) : F64) = F64.fin (6485183463413515 / 36028797018963968) := by
    rw [fin_mul_fin]
    apply ofRat_pos _ _ 6485183463413515 (-55) <;> norm_num
  have e6 : (F64.fin (6485183463413515 / 36028797018963968) * F64.fin 1 : F64) = F64.fin (6485183463413515 / 36028797018963968) := by
    rw [fin_mul_fin]
    apply ofRat_pos _ _ 6485183463413515 (-55) <;> norm_num
  have e7 : (F64.fin (1 / 2) + F64.fin (6485183463413515 / 36028797018963968) : F64) = F64.fin (6124895493223875 / 9007199254740992) := by
    rw [fin_add_fin]
    apply ofRat_pos _ _ 6124895493223875 (-53) <;> norm_num
  have e8 : (F64.fin (3152519739159347 / 4503599627370496) - F64.fin (1 / 2) : F64) = F64.fin (900719925474099 / 4503599627370496) := by
    rw [fin_sub_fin]
    apply ofRat_pos _ _ 7205759403792792 (-55) <;> norm_num
  have e9 : (F64.fin (8106479329266893 / 9007199254740992) * F64.fin (900719925474099 / 4503599627370496) : F64) = F64.fin (6485183463413513 / 36028797018963968) := by
    rw [fin_mul_fin]
    apply ofRat_pos _ _ 6485183463413513 (-55) <;> norm_num
  have e10 : (F64.fin (1 / 2) + F64.fin (6485183463413513 / 36028797018963968) : F64) = F64.fin (3062447746611937 / 4503599627370496) := by
    rw [fin_add_fin]
    apply ofRat_pos _ _ 6124895493223874 (-53) <;> norm_num
  rw [e1, e2, e3, e4, e5, e6, e7, e8, e9, e10] at h2
  have h3 := F64.fin.inj h2
  norm_num at h3

end MachineCone

end Visualization
end Acts
